import Mathlib

/-!
Verification of the model-viewer asset pipeline (AAR / QNT / POL / MOT decoders
and scene assembly) against its natural-language specification.

The embedding follows the sources:
* `BufferReader` — the little-endian cursor reader of `buffer.ts`;
* `Pol.*` — the POL decoder of `pol.ts`;
* `Aar.*` — the archive reader of `aar.ts`;
* `Qnt.*` — the predictor unfilter and pixel assembly of `lib/qnt.c`;
* `Model.*` — the scene-assembly helpers of `model.ts`.

Byte buffers are `List Nat`; JavaScript numbers holding 32-bit float values
are embedded symbolically as `RVal` terms that record the exact bit pattern
read and the arithmetic applied to it (negation, inch-to-meter scaling,
division by 255).  Fallible code returns `Except Err`.
-/

set_option linter.unusedVariables false

/-- Error kinds, one per throw site of the sources. -/
inductive Err where
  | truncated
  | notPol
  | badPolVersion
  | unknownMeshType
  | materialOOB
  | duplicatedTextureType
  | noBasicTexture
  | bothTexturesAndChildren
  | vertexIndexOOB
  | textureIndexOOB
  | lightUvIndexOOB
  | colorIndexOOB
  | alphaIndexOOB
  | badMeshFooter
  | notZlb
  | badZlbVersion
  | badZlbSize
  | decompressFailed
  | notFound
  | notImplemented
deriving DecidableEq, Repr

/-- A JavaScript number produced while decoding: the raw 32-bit float bit
pattern read by `getFloat32`, possibly negated, scaled by `METERS_PER_INCH`,
or obtained as `byte / 255`.  Claims never inspect the real value, so the
computation is kept symbolically. -/
inductive RVal where
  | f32 (bits : Nat)
  | neg (v : RVal)
  | inches (v : RVal)
  | byteFrac (b : Nat)
  | num (n : Nat)
deriving DecidableEq, Repr

/-- Monotone integer key of an IEEE-754 single: bit patterns compare like the
floats they denote (sign-magnitude unfolding), used for weight sorting. -/
def f32Key (bits : Nat) : Int :=
  if bits < 2 ^ 31 then (bits : Int) else -((bits : Int) - 2 ^ 31)

/-- Numeric sort key of an `RVal`. -/
def RVal.key : RVal → Int
  | .f32 bits => f32Key bits
  | .neg v => -v.key
  | .inches v => v.key
  | .byteFrac b => (b : Int)
  | .num n => (n : Int)

structure PVec2 where
  u : RVal
  v : RVal
deriving DecidableEq, Repr

structure PVec3 where
  x : RVal
  y : RVal
  z : RVal
deriving DecidableEq, Repr

structure PVec4 where
  w : RVal
  x : RVal
  y : RVal
  z : RVal
deriving DecidableEq, Repr

/-- The `BufferReader` of `buffer.ts`: a byte buffer plus a cursor. -/
structure BufferReader where
  data : List Nat
  offset : Nat
deriving DecidableEq, Repr

namespace BufferReader

/-- The `readU8`: one byte; `DataView.getUint8` throws past the end. -/
def readU8 (r : BufferReader) : Except Err (Nat × BufferReader) :=
  match r.data[r.offset]? with
  | some b => .ok (b, ⟨r.data, r.offset + 1⟩)
  | none => .error .truncated

/-- The `readU16` (little endian). -/
def readU16 (r : BufferReader) : Except Err (Nat × BufferReader) :=
  match r.data[r.offset]?, r.data[r.offset + 1]? with
  | some b0, some b1 => .ok (b0 + b1 * 256, ⟨r.data, r.offset + 2⟩)
  | _, _ => .error .truncated

/-- The `readU32` (little endian). -/
def readU32 (r : BufferReader) : Except Err (Nat × BufferReader) :=
  match r.data[r.offset]?, r.data[r.offset + 1]?,
        r.data[r.offset + 2]?, r.data[r.offset + 3]? with
  | some b0, some b1, some b2, some b3 =>
    .ok (b0 + b1 * 256 + b2 * 65536 + b3 * 16777216, ⟨r.data, r.offset + 4⟩)
  | _, _, _, _ => .error .truncated

/-- The `readS32`: `getInt32`, i.e. the unsigned value reinterpreted in two's
complement. -/
def readS32 (r : BufferReader) : Except Err (Int × BufferReader) :=
  match r.readU32 with
  | .ok (v, r') =>
    .ok (if v < 2 ^ 31 then (v : Int) else (v : Int) - 2 ^ 32, r')
  | .error e => .error e

/-- The `readF32`: consumes four bytes and keeps the float's bit pattern. -/
def readF32 (r : BufferReader) : Except Err (RVal × BufferReader) :=
  match r.readU32 with
  | .ok (v, r') => .ok (.f32 v, r')
  | .error e => .error e

/-- The `readFourCC`: four raw bytes. -/
def readFourCC (r : BufferReader) : Except Err (List Nat × BufferReader) :=
  match r.data[r.offset]?, r.data[r.offset + 1]?,
        r.data[r.offset + 2]?, r.data[r.offset + 3]? with
  | some b0, some b1, some b2, some b3 =>
    .ok ([b0, b1, b2, b3], ⟨r.data, r.offset + 4⟩)
  | _, _, _, _ => .error .truncated

/-- The `readStrZ`: bytes until a zero terminator (consumed), with an optional
per-byte unmask filter; scanning past the end throws. -/
def readStrZ (r : BufferReader) (filter : Option (Nat → Nat)) :
    Except Err (List Nat × BufferReader) :=
  match (r.data.drop r.offset).findIdx? (· = 0) with
  | some k =>
    let bytes := (r.data.drop r.offset).take k
    .ok (match filter with
         | some f => bytes.map f
         | none => bytes,
         ⟨r.data, r.offset + k + 1⟩)
  | none => .error .truncated

/-- The `readPosition`: `(x, y, -z)` scaled by `METERS_PER_INCH`. -/
def readPosition (r : BufferReader) : Except Err (PVec3 × BufferReader) :=
  match r.readF32 with
  | .error e => .error e
  | .ok (bx, r) =>
    match r.readF32 with
    | .error e => .error e
    | .ok (bby, r) =>
      match r.readF32 with
      | .error e => .error e
      | .ok (bz, r) => .ok (⟨.inches bx, .inches bby, .inches (.neg bz)⟩, r)

/-- The `readDirection`: `(x, y, -z)`, no scale. -/
def readDirection (r : BufferReader) : Except Err (PVec3 × BufferReader) :=
  match r.readF32 with
  | .error e => .error e
  | .ok (bx, r) =>
    match r.readF32 with
    | .error e => .error e
    | .ok (bby, r) =>
      match r.readF32 with
      | .error e => .error e
      | .ok (bz, r) => .ok (⟨bx, bby, .neg bz⟩, r)

/-- The `readQuaternion`: `(w, -x, -y, z)`. -/
def readQuaternion (r : BufferReader) : Except Err (PVec4 × BufferReader) :=
  match r.readF32 with
  | .error e => .error e
  | .ok (bw, r) =>
    match r.readF32 with
    | .error e => .error e
    | .ok (bx, r) =>
      match r.readF32 with
      | .error e => .error e
      | .ok (bby, r) =>
        match r.readF32 with
        | .error e => .error e
        | .ok (bz, r) => .ok (⟨bw, .neg bx, .neg bby, bz⟩, r)

end BufferReader

/-! ## POL decoder (`pol.ts`) -/

/-- One step bound of the `/\([^)]+\)/g` attribute-token scan: find each
substring that starts with `(`, has at least one non-`)` byte, and ends at
the first following `)`.  `fuel` only bounds the recursion; `scanTokens`
supplies enough for the whole string. -/
def scanTokensF : Nat → List Nat → List (List Nat)
  | 0, _ => []
  | _, [] => []
  | fuel + 1, c :: rest =>
    if c = 40 then
      match rest.findIdx? (· = 41) with
      | some k =>
        if 1 ≤ k then
          (40 :: (rest.take k ++ [41])) :: scanTokensF fuel (rest.drop (k + 1))
        else scanTokensF fuel rest
      | none => []
    else scanTokensF fuel rest

/-- All `(token)` matches of a name, parentheses included. -/
def scanTokens (s : List Nat) : List (List Nat) := scanTokensF s.length s

structure MaterialAttrs where
  alpha : Bool := false
  env : Bool := false
  sprite : Bool := false
deriving DecidableEq, Repr

/-- The `(alpha) (env) (sprite)` flags scanned from a material name; unknown
tokens only warn. -/
def matAttrsOf (name : List Nat) : MaterialAttrs :=
  (scanTokens name).foldl (fun a tok =>
    if tok = [40, 97, 108, 112, 104, 97, 41] then { a with alpha := true }
    else if tok = [40, 101, 110, 118, 41] then { a with env := true }
    else if tok = [40, 115, 112, 114, 105, 116, 101, 41] then { a with sprite := true }
    else a) {}

structure MeshAttrs where
  alpha : Bool := false
  both : Bool := false
  env : Bool := false
  mirrored : Bool := false
  nolighting : Bool := false
  nomakeshadow : Bool := false
  sprite : Bool := false
  water : Bool := false
deriving DecidableEq, Repr

/-- The eight recognized `(token)` flags of a mesh name. -/
def meshAttrsOf (name : List Nat) : MeshAttrs :=
  (scanTokens name).foldl (fun a tok =>
    if tok = [40, 97, 108, 112, 104, 97, 41] then { a with alpha := true }
    else if tok = [40, 98, 111, 116, 104, 41] then { a with both := true }
    else if tok = [40, 101, 110, 118, 41] then { a with env := true }
    else if tok = [40, 109, 105, 114, 114, 111, 114, 101, 100, 41] then { a with mirrored := true }
    else if tok = [40, 110, 111, 108, 105, 103, 104, 116, 105, 110, 103, 41] then { a with nolighting := true }
    else if tok = [40, 110, 111, 109, 97, 107, 101, 115, 104, 97, 100, 111, 119, 41] then { a with nomakeshadow := true }
    else if tok = [40, 115, 112, 114, 105, 116, 101, 41] then { a with sprite := true }
    else if tok = [40, 119, 97, 116, 101, 114, 41] then { a with water := true }
    else a) {}

/-- The `MaterialInfo` of `pol.ts`: name, attribute flags, texture-role map
(insertion-ordered, duplicate roles rejected at parse), child materials. -/
inductive MaterialInfo where
  | mk (name : List Nat) (attrs : MaterialAttrs) (textures : List (Nat × List Nat))
      (children : List MaterialInfo)

def MaterialInfo.name : MaterialInfo → List Nat
  | .mk n _ _ _ => n

def MaterialInfo.attrs : MaterialInfo → MaterialAttrs
  | .mk _ a _ _ => a

def MaterialInfo.textures : MaterialInfo → List (Nat × List Nat)
  | .mk _ _ t _ => t

def MaterialInfo.children : MaterialInfo → List MaterialInfo
  | .mk _ _ _ c => c

structure BoneWeight where
  bone : Nat
  weight : RVal
deriving DecidableEq, Repr

structure PVertex where
  x : RVal
  y : RVal
  z : RVal
  weights : List BoneWeight
deriving DecidableEq, Repr

structure Triangle where
  vert_index : List Nat
  uv_index : List Nat
  light_uv_index : List Int
  color_index : List Nat
  alpha_index : List Nat
  normals : List PVec3
  material_index : Nat
deriving DecidableEq, Repr

structure PolMesh where
  name : List Nat
  attrs : MeshAttrs
  material : Int
  vertices : List PVertex
  uvs : List PVec2
  light_uvs : Option (List PVec2)
  colors : Option (List PVec3)
  triangles : List Triangle
  alphas : Option (List RVal)
deriving Repr

structure PolBone where
  name : List Nat
  id : Int
  parent : Int
  pos : PVec3
  rotq : PVec4
deriving DecidableEq, Repr

structure PolData where
  version : Nat
  materials : List MaterialInfo
  meshes : List (Option PolMesh)
  bones : List PolBone

/-- The `for (i = 0; i < n; i++) out.push(f(...))` over a reader. -/
def parseCount {α : Type} (f : BufferReader → Except Err (α × BufferReader)) :
    Nat → BufferReader → Except Err (List α × BufferReader)
  | 0, r => .ok ([], r)
  | n + 1, r => do
    let (x, r₁) ← f r
    let (xs, r₂) ← parseCount f n r₁
    .ok (x :: xs, r₂)

/-- JavaScript array indexing with a possibly negative index. -/
def jsIndex {α : Type} (l : List α) (i : Int) : Option α :=
  if 0 ≤ i then l[i.toNat]? else none

namespace Pol

/-- The `textures.has(type)`. -/
def texHas (m : List (Nat × List Nat)) (k : Nat) : Bool :=
  m.any (fun p => p.1 = k)

/-- The texture-reading loop of `parse_material`: filename, role, duplicate
roles fatal, unknown roles only logged. -/
def parse_textures : Nat → List (Nat × List Nat) → BufferReader →
    Except Err (List (Nat × List Nat) × BufferReader)
  | 0, acc, r => .ok (acc, r)
  | n + 1, acc, r => do
    let (fname, r₁) ← r.readStrZ none
    let (ty, r₂) ← r₁.readU32
    if texHas acc ty then .error .duplicatedTextureType
    else parse_textures n (acc ++ [(ty, fname)]) r₂

/-- The `parse_material` with `can_have_children = false` (child materials). -/
def parse_material_nochild (r : BufferReader) :
    Except Err (MaterialInfo × BufferReader) := do
  let (name, r₁) ← r.readStrZ none
  let attrs := matAttrsOf name
  let (nrTextures, r₂) ← r₁.readU32
  let (textures, r₃) ← parse_textures nrTextures [] r₂
  if 0 < textures.length ∧ ¬ texHas textures 1 then .error .noBasicTexture
  else .ok (.mk name attrs textures [], r₃)

/-- The `parse_material` with `can_have_children = true` (top level). -/
def parse_material_top (r : BufferReader) :
    Except Err (MaterialInfo × BufferReader) := do
  let (name, r₁) ← r.readStrZ none
  let attrs := matAttrsOf name
  let (nrTextures, r₂) ← r₁.readU32
  let (textures, r₃) ← parse_textures nrTextures [] r₂
  if 0 < textures.length ∧ ¬ texHas textures 1 then .error .noBasicTexture
  else do
    let (nrChildren, r₄) ← r₃.readU32
    if 0 < nrTextures ∧ 0 < nrChildren then .error .bothTexturesAndChildren
    else do
      let (children, r₅) ← parseCount parse_material_nochild nrChildren r₄
      .ok (.mk name attrs textures children, r₅)

/-- Stable insertion keeping descending weight order. -/
def insertWeight (w : BoneWeight) : List BoneWeight → List BoneWeight
  | [] => [w]
  | u :: us =>
    if u.weight.key ≤ w.weight.key then w :: u :: us else u :: insertWeight w us

/-- The `weights.sort((a, b) => b.weight - a.weight)`: stable descending sort. -/
def sortWeights : List BoneWeight → List BoneWeight
  | [] => []
  | w :: ws => insertWeight w (sortWeights ws)

/-- One skinning weight: u32 bone + f32 weight in v1, u16 bone in v2. -/
def parse_weight (version : Nat) (r : BufferReader) :
    Except Err (BoneWeight × BufferReader) := do
  let (bone, r₁) ← if version = 1 then r.readU32 else r.readU16
  let (weight, r₂) ← r₁.readF32
  .ok (⟨bone, weight⟩, r₂)

/-- The `parse_vertex`: position, weight count (u32 in v1, u16 in v2), weights
sorted by descending weight. -/
def parse_vertex (version : Nat) (r : BufferReader) :
    Except Err (PVertex × BufferReader) := do
  let (pos, r₁) ← r.readPosition
  let (nrWeights, r₂) ← if version = 1 then r₁.readU32 else r₁.readU16
  let (weights, r₃) ← parseCount (parse_weight version) nrWeights r₂
  .ok (⟨pos.x, pos.y, pos.z, sortWeights weights⟩, r₃)

/-- One UV pair, stored as `(u, -v)`. -/
def parse_uv (r : BufferReader) : Except Err (PVec2 × BufferReader) := do
  let (u, r₁) ← r.readF32
  let (v, r₂) ← r₁.readF32
  .ok (⟨u, .neg v⟩, r₂)

/-- One vertex color: three f32 in v1; RGBA8 (alpha only warned about) scaled
by 1/255 in v2. -/
def parse_color (version : Nat) (r : BufferReader) :
    Except Err (PVec3 × BufferReader) :=
  if version = 1 then do
    let (x, r₁) ← r.readF32
    let (y, r₂) ← r₁.readF32
    let (z, r₃) ← r₂.readF32
    .ok (⟨x, y, z⟩, r₃)
  else do
    let (cr, r₁) ← r.readU8
    let (cg, r₂) ← r₁.readU8
    let (cb, r₃) ← r₂.readU8
    let (ca, r₄) ← r₃.readU8
    .ok (⟨.byteFrac cr, .byteFrac cg, .byteFrac cb⟩, r₄)

/-- One alpha byte, scaled by 1/255. -/
def parse_alpha (r : BufferReader) : Except Err (RVal × BufferReader) := do
  let (b, r₁) ← r.readU8
  .ok (.byteFrac b, r₁)

/-- The submaterial clamp of `parse_triangle`: a raw index at or above the
child-material count is replaced by 0; with no material or no children the
raw value is kept. -/
def clampSubmaterial (material : Option MaterialInfo) (mi : Nat) : Nat :=
  match material with
  | some m =>
    if 0 < m.children.length ∧ m.children.length ≤ mi then 0 else mi
  | none => mi

/-- The final u32 of a triangle record plus the clamp. -/
def parse_submaterial (material : Option MaterialInfo) (r : BufferReader) :
    Except Err (Nat × BufferReader) := do
  let (mi, r₁) ← r.readU32
  .ok (clampSubmaterial material mi, r₁)

/-- The light-uv block of `parse_triangle`: when `nr_light_uvs > 0`, three
u32 values offset by `-nr_uvs` and range-checked in light-uv space; an empty
list otherwise. -/
def parse_light_uv_index (nr_uvs nr_light_uvs : Nat) (r : BufferReader) :
    Except Err (List Int × BufferReader) :=
  if 0 < nr_light_uvs then do
    let (l0, r) ← r.readU32
    let (l1, r) ← r.readU32
    let (l2, r) ← r.readU32
    let i0 : Int := (l0 : Int) - (nr_uvs : Int)
    let i1 : Int := (l1 : Int) - (nr_uvs : Int)
    let i2 : Int := (l2 : Int) - (nr_uvs : Int)
    if i0 < 0 ∨ (nr_light_uvs : Int) ≤ i0 then .error .lightUvIndexOOB
    else if i1 < 0 ∨ (nr_light_uvs : Int) ≤ i1 then .error .lightUvIndexOOB
    else if i2 < 0 ∨ (nr_light_uvs : Int) ≤ i2 then .error .lightUvIndexOOB
    else pure ([i0, i1, i2], r)
  else pure (([] : List Int), r)

/-- The color-index loop of `parse_triangle`: three u32 values, each checked
only when `nr_colors > 0`. -/
def parse_color_index (nr_colors : Nat) (r : BufferReader) :
    Except Err (List Nat × BufferReader) := do
  let (c0, r) ← r.readU32
  if 0 < nr_colors ∧ nr_colors ≤ c0 then .error .colorIndexOOB
  else do
    let (c1, r) ← r.readU32
    if 0 < nr_colors ∧ nr_colors ≤ c1 then .error .colorIndexOOB
    else do
      let (c2, r) ← r.readU32
      if 0 < nr_colors ∧ nr_colors ≤ c2 then .error .colorIndexOOB
      else pure ([c0, c1, c2], r)

/-- The alpha-index block of `parse_triangle`: three checked u32 values when
`nr_alphas` is nonzero, else nothing. -/
def parse_alpha_index (nr_alphas : Nat) (r : BufferReader) :
    Except Err (List Nat × BufferReader) :=
  if 0 < nr_alphas then do
    let (a0, r) ← r.readU32
    if nr_alphas ≤ a0 then .error .alphaIndexOOB
    else do
      let (a1, r) ← r.readU32
      if nr_alphas ≤ a1 then .error .alphaIndexOOB
      else do
        let (a2, r) ← r.readU32
        if nr_alphas ≤ a2 then .error .alphaIndexOOB
        else pure ([a0, a1, a2], r)
  else pure (([] : List Nat), r)

/-- The `parse_triangle`: three vertex and three uv indices (range-checked
pairwise in loop order), light-uv indices offset by `-nr_uvs` and
range-checked when `nr_light_uvs > 0`, color indices range-checked when
`nr_colors > 0`, alpha indices when `nr_alphas > 0`, three normals, and the
clamped submaterial index. -/
def parse_triangle (nr_vertices nr_uvs nr_light_uvs nr_colors nr_alphas : Nat)
    (material : Option MaterialInfo) (r : BufferReader) :
    Except Err (Triangle × BufferReader) := do
  let (v0, r) ← r.readU32
  let (v1, r) ← r.readU32
  let (v2, r) ← r.readU32
  let (u0, r) ← r.readU32
  let (u1, r) ← r.readU32
  let (u2, r) ← r.readU32
  if nr_vertices ≤ v0 then .error .vertexIndexOOB
  else if nr_uvs ≤ u0 then .error .textureIndexOOB
  else if nr_vertices ≤ v1 then .error .vertexIndexOOB
  else if nr_uvs ≤ u1 then .error .textureIndexOOB
  else if nr_vertices ≤ v2 then .error .vertexIndexOOB
  else if nr_uvs ≤ u2 then .error .textureIndexOOB
  else do
    let (light_uv_index, r) ← parse_light_uv_index nr_uvs nr_light_uvs r
    let (color_index, r) ← parse_color_index nr_colors r
    let (alpha_index, r) ← parse_alpha_index nr_alphas r
    let (n0, r) ← r.readDirection
    let (n1, r) ← r.readDirection
    let (n2, r) ← r.readDirection
    let (material_index, r) ← parse_submaterial material r
    .ok (⟨[v0, v1, v2], [u0, u1, u2], light_uv_index, color_index,
          alpha_index, [n0, n1, n2], material_index⟩, r)

/-- The light-uv table of `parse_mesh`: present (and read) only when
`nr_light_uvs > 0`. -/
def parse_light_uvs_table (nr_light_uvs : Nat) (r : BufferReader) :
    Except Err (Option (List PVec2) × BufferReader) :=
  if 0 < nr_light_uvs then do
    let (l, r₁) ← parseCount parse_uv nr_light_uvs r
    pure (some l, r₁)
  else pure (none, r)

/-- The color table of `parse_mesh`: present only when `nr_colors > 0`. -/
def parse_colors_table (version nr_colors : Nat) (r : BufferReader) :
    Except Err (Option (List PVec3) × BufferReader) :=
  if 0 < nr_colors then do
    let (l, r₁) ← parseCount (parse_color version) nr_colors r
    pure (some l, r₁)
  else pure (none, r)

/-- The alpha count of `parse_mesh`: read from the stream only in v2. -/
def parse_alphas_count (version : Nat) (r : BufferReader) :
    Except Err (Nat × BufferReader) :=
  if 2 ≤ version then r.readU32 else pure (0, r)

/-- The alpha table of `parse_mesh`: present only when `nr_alphas > 0`. -/
def parse_alphas_table (nr_alphas : Nat) (r : BufferReader) :
    Except Err (Option (List RVal) × BufferReader) :=
  if 0 < nr_alphas then do
    let (l, r₁) ← parseCount parse_alpha nr_alphas r
    pure (some l, r₁)
  else pure (none, r)

/-- The v1-only `(1, 0)` mesh footer. -/
def parse_mesh_footer (version : Nat) (r : BufferReader) :
    Except Err (Unit × BufferReader) :=
  if version = 1 then do
    let (f1, r₁) ← r.readU32
    if f1 ≠ 1 then .error .badMeshFooter
    else do
      let (f2, r₂) ← r₁.readU32
      if f2 ≠ 0 then .error .badMeshFooter
      else pure ((), r₂)
  else pure ((), r)

/-- The `parse_mesh`: type tag (0 present, −1 placeholder, else fatal), name with
attribute scan, material index in `[-1, nr_materials)`, vertex/uv/light-uv/
color/alpha tables, triangles, and in v1 the `(1, 0)` footer. -/
def parse_mesh (version : Nat) (materials : List MaterialInfo)
    (r : BufferReader) : Except Err (Option PolMesh × BufferReader) := do
  let (ty, r) ← r.readS32
  if ty = -1 then .ok (none, r)
  else if ty ≠ 0 then .error .unknownMeshType
  else do
    let (name, r) ← r.readStrZ none
    let attrs := meshAttrsOf name
    let (material, r) ← r.readS32
    if material < -1 ∨ (materials.length : Int) ≤ material then .error .materialOOB
    else do
      let (nr_vertices, r) ← r.readU32
      let (vertices, r) ← parseCount (parse_vertex version) nr_vertices r
      let (nr_uvs, r) ← r.readU32
      let (uvs, r) ← parseCount parse_uv nr_uvs r
      let (nr_light_uvs, r) ← r.readU32
      let (light_uvs, r) ← parse_light_uvs_table nr_light_uvs r
      let (nr_colors, r) ← r.readU32
      let (colors, r) ← parse_colors_table version nr_colors r
      let (nr_alphas, r) ← parse_alphas_count version r
      let (alphas, r) ← parse_alphas_table nr_alphas r
      let (nr_triangles, r) ← r.readU32
      let (triangles, r) ← parseCount
        (parse_triangle nr_vertices nr_uvs nr_light_uvs nr_colors nr_alphas
          (jsIndex materials material)) nr_triangles r
      let (fin, r) ← parse_mesh_footer version r
      .ok (some ⟨name, attrs, material, vertices, uvs, light_uvs,
                 colors, triangles, alphas⟩, r)

/-- The `parse_bone`. -/
def parse_bone (r : BufferReader) : Except Err (PolBone × BufferReader) := do
  let (name, r) ← r.readStrZ none
  let (id, r) ← r.readS32
  let (parent, r) ← r.readS32
  let (pos, r) ← r.readPosition
  let (rotq, r) ← r.readQuaternion
  .ok (⟨name, id, parent, pos, rotq⟩, r)

/-- The `Pol` constructor: magic, version ∈ {1, 2}, materials, meshes, bones
(trailing bytes only logged). -/
def parse (buf : List Nat) : Except Err PolData := do
  let r : BufferReader := ⟨buf, 0⟩
  let (magic, r) ← r.readFourCC
  if magic ≠ [80, 79, 76, 0] then .error .notPol
  else do
    let (version, r) ← r.readU32
    if version ≠ 1 ∧ version ≠ 2 then .error .badPolVersion
    else do
      let (nr_materials, r) ← r.readU32
      let (materials, r) ← parseCount parse_material_top nr_materials r
      let (nr_meshes, r) ← r.readU32
      let (meshes, r) ← parseCount (parse_mesh version materials) nr_meshes r
      let (nr_bones, r) ← r.readU32
      let (bones, r) ← parseCount parse_bone nr_bones r
      .ok ⟨version, materials, meshes, bones⟩

end Pol

/-! ## AAR archive (`aar.ts`) -/

structure AarEntry where
  offset : Nat
  size : Nat
  type : Int
  name : List Nat
  symlink_target : Option (List Nat)
deriving DecidableEq, Repr

structure AarModel where
  blob : List Nat
  version : Nat
  entries : List AarEntry

namespace Aar

/-- JavaScript `Map.set`: an existing key keeps its position and gets the new
value; a fresh key is appended. -/
def mapSet (m : List (List Nat × AarEntry)) (k : List Nat) (v : AarEntry) :
    List (List Nat × AarEntry) :=
  match m with
  | [] => [(k, v)]
  | (k', v') :: rest =>
    if k' = k then (k', v) :: rest else (k', v') :: mapSet rest k v

/-- JavaScript `Map.get`. -/
def mapGet (m : List (List Nat × AarEntry)) (k : List Nat) : Option AarEntry :=
  match m with
  | [] => none
  | (k', v) :: rest => if k' = k then some v else mapGet rest k

/-- The constructor loop `for (e of entries) map.set(e.name.toLowerCase(), e)`,
with the host `toLowerCase` abstracted as `lc`. -/
def buildMapFrom (lc : List Nat → List Nat)
    (m : List (List Nat × AarEntry)) : List AarEntry →
    List (List Nat × AarEntry)
  | [] => m
  | e :: es => buildMapFrom lc (mapSet m (lc e.name) e) es

def buildMap (lc : List Nat → List Nat) (entries : List AarEntry) :
    List (List Nat × AarEntry) :=
  buildMapFrom lc [] entries

/-- The `filenames()`: the original names of the map's values in map order. -/
def filenames (lc : List Nat → List Nat) (entries : List AarEntry) :
    List (List Nat) :=
  (buildMap lc entries).map (fun kv => kv.2.name)

/-- The `readEntry`: `blob.slice(offset, offset + size)`. -/
def readEntry (blob : List Nat) (e : AarEntry) : List Nat :=
  (blob.drop e.offset).take e.size

/-- The `decompress` of `lib/qnt.c` over an abstract zlib `uncompress` oracle
`un` (arguments: source bytes, declared compressed size, destination
capacity): null on zlib failure, null when the inflated length differs from
`raw_size`, the inflated buffer otherwise. -/
def decompressC (un : List Nat → Nat → Nat → Option (List Nat))
    (compressed : List Nat) (csize rsize : Nat) : Option (List Nat) :=
  match un compressed csize rsize with
  | none => none
  | some data => if data.length = rsize then some data else none

/-- The `inflateEntry`: ZLB header validation then decompression; the returned
buffer is `memget(outPtr, outSize)`. -/
def inflateEntry (un : List Nat → Nat → Nat → Option (List Nat))
    (blob : List Nat) (e : AarEntry) : Except Err (List Nat) :=
  let buf := readEntry blob e
  match BufferReader.readFourCC ⟨buf, 0⟩ with
  | .error er => .error er
  | .ok (cc, r) =>
    if cc ≠ [90, 76, 66, 0] then .error .notZlb
    else match r.readU32 with
    | .error er => .error er
    | .ok (ver, r) =>
      if ver ≠ 0 then .error .badZlbVersion
      else match r.readU32 with
      | .error er => .error er
      | .ok (outSize, r) =>
        match r.readU32 with
        | .error er => .error er
        | .ok (inSize, r) =>
          if inSize + 16 ≠ e.size then .error .badZlbSize
          else match decompressC un (buf.drop 16) inSize outSize with
          | none => .error .decompressFailed
          | some raw => .ok raw

/-- The `switch (entry.type)` dispatch of `load`. -/
def loadEntry (un : List Nat → Nat → Nat → Option (List Nat))
    (blob : List Nat) (e : AarEntry) : Except Err (List Nat) :=
  if e.type = 0 then inflateEntry un blob e
  else if e.type = 1 then .ok (readEntry blob e)
  else .error .notImplemented

/-- The `load(name)`: case-insensitive lookup then dispatch. -/
def load (un : List Nat → Nat → Nat → Option (List Nat))
    (lc : List Nat → List Nat) (ar : AarModel) (name : List Nat) :
    Except Err (List Nat) :=
  match mapGet (buildMap lc ar.entries) (lc name) with
  | none => .error .notFound
  | some e => loadEntry un ar.blob e

/-- The `toLowerCase` restricted to ASCII, used for concrete instances. -/
def asciiLower (s : List Nat) : List Nat :=
  s.map (fun c => if 65 ≤ c ∧ c ≤ 90 then c + 32 else c)

end Aar

/-! ## QNT pixel reconstruction (`lib/qnt.c`) -/

namespace Qnt

/-- One byte store into a memory buffer modelled as `Nat → Nat`. -/
def upd (f : Nat → Nat) (i v : Nat) : Nat → Nat :=
  fun j => if j = i then v else f j

/-- The `uint8_t` assignment of an `int` difference: reduce modulo 256. -/
def sub8 (a b : Nat) : Nat := (((a : Int) - (b : Int)) % 256).toNat

/-- The `(n + 1) & ~1`: round up to even. -/
def evenUp (n : Nat) : Nat := 2 * ((n + 1) / 2)

/-- First-row channel loop of `unfilter`: `pixels[x*4+c] -= ...` for
`c = 0..3` (argument `4` processes all four). -/
def row0Chans (f : Nat → Nat) (x : Nat) : Nat → (Nat → Nat)
  | 0 => f
  | c + 1 =>
    let g := row0Chans f x c
    upd g (x * 4 + c) (sub8 (g ((x - 1) * 4 + c)) (g (x * 4 + c)))

/-- First-row x loop: `row0Loop f n` has processed `x = 1..n`. -/
def row0Loop (f : Nat → Nat) : Nat → (Nat → Nat)
  | 0 => f
  | n + 1 => row0Chans (row0Loop f n) (n + 1) 4

/-- Column-0 channel loop of row `y`: `row[c] = prevrow[c] - row[c]`. -/
def colChans (f : Nat → Nat) (w y : Nat) : Nat → (Nat → Nat)
  | 0 => f
  | c + 1 =>
    let g := colChans f w y c
    upd g (y * w * 4 + c) (sub8 (g ((y - 1) * w * 4 + c)) (g (y * w * 4 + c)))

/-- Channel loop at `(x, y)`, `x ≥ 1, y ≥ 1`:
`row[x*4+c] = ((up + left) >> 1) - row[x*4+c]` with the sum taken in `int`. -/
def rowChans (f : Nat → Nat) (w y x : Nat) : Nat → (Nat → Nat)
  | 0 => f
  | c + 1 =>
    let g := rowChans f w y x c
    upd g (y * w * 4 + x * 4 + c)
      (sub8 ((g ((y - 1) * w * 4 + x * 4 + c) + g (y * w * 4 + (x - 1) * 4 + c)) / 2)
        (g (y * w * 4 + x * 4 + c)))

/-- Row `y` x loop: `rowXLoop f w y n` has processed `x = 1..n`. -/
def rowXLoop (f : Nat → Nat) (w y : Nat) : Nat → (Nat → Nat)
  | 0 => f
  | n + 1 => rowChans (rowXLoop f w y n) w y (n + 1) 4

/-- One full row `y ≥ 1` of `unfilter`: column 0 then `x = 1..w-1`. -/
def rowPass (f : Nat → Nat) (w y : Nat) : Nat → Nat :=
  rowXLoop (colChans f w y 4) w y (w - 1)

/-- Row loop: `rowsLoop f w n` has processed rows `1..n`. -/
def rowsLoop (f : Nat → Nat) (w : Nat) : Nat → (Nat → Nat)
  | 0 => f
  | n + 1 => rowPass (rowsLoop f w n) w (n + 1)

/-- The `unfilter(pixels, width, height)`: first row then rows `1..height-1`,
in place, in scan order. -/
def unfilter (f : Nat → Nat) (w h : Nat) : Nat → Nat :=
  rowsLoop (row0Loop f (w - 1)) w (h - 1)

/-- Inner x-block loop of `extract_pixels` for channel `c`, row pair at `y`:
`k` counts processed 2×2-column blocks, the state is the read pointer `p`
into the decompressed plane plus the pixel buffer. -/
def xBlockLoop (raw : Nat → Nat) (c W y : Nat) :
    Nat → (Nat × (Nat → Nat)) → Nat × (Nat → Nat)
  | 0, s => s
  | k + 1, s =>
    let (p, pix) := xBlockLoop raw c W y k s
    let x := 2 * k
    let row1 := y * W * 4
    let row2 := row1 + W * 4
    let pix := upd pix (row1 + x * 4 + c) (raw p)
    let pix := upd pix (row2 + x * 4 + c) (raw (p + 1))
    let pix := upd pix (row1 + (x + 1) * 4 + c) (raw (p + 2))
    let pix := upd pix (row2 + (x + 1) * 4 + c) (raw (p + 3))
    (p + 4, pix)

/-- y-block loop for channel `c`: `k` counts processed row pairs. -/
def yBlockLoop (raw : Nat → Nat) (c W : Nat) :
    Nat → (Nat × (Nat → Nat)) → Nat × (Nat → Nat)
  | 0, s => s
  | k + 1, s => xBlockLoop raw c W (2 * k) (W / 2) (yBlockLoop raw c W k s)

/-- Channel loop, `c = 2, 1, 0` in that order (`n` channels processed). -/
def chanLoop (raw : Nat → Nat) (W H : Nat) :
    Nat → (Nat × (Nat → Nat)) → Nat × (Nat → Nat)
  | 0, s => s
  | n + 1, s => yBlockLoop raw (2 - n) W (H / 2) (chanLoop raw W H n s)

/-- The `extract_pixels`: dimensions rounded up to even, zero-initialized RGBA
buffer, channel-planar 2×2-block reassembly of the decompressed plane. -/
def extract_pixels (width height : Nat) (raw : Nat → Nat) : Nat → Nat :=
  let W := evenUp width
  let H := evenUp height
  (chanLoop raw W H 3 (0, fun _ => 0)).2

/-- One row of `merge_alpha_channel` (row `y`, `k` columns done). -/
def mergeRow (pixels alpha : Nat → Nat) (w y : Nat) : Nat → (Nat → Nat)
  | 0 => pixels
  | k + 1 =>
    let g := mergeRow pixels alpha w y k
    upd g (y * w * 4 + k * 4 + 3) (alpha (y * w + k))

/-- Row loop of `merge_alpha_channel` (`k` rows done). -/
def mergeRows (pixels alpha : Nat → Nat) (w : Nat) : Nat → (Nat → Nat)
  | 0 => pixels
  | k + 1 => mergeRow (mergeRows pixels alpha w k) alpha w k w

/-- The `merge_alpha_channel(pixels, alpha, width, height)` — called with the
declared dimensions. -/
def merge_alpha_channel (pixels alpha : Nat → Nat) (width height : Nat) :
    Nat → Nat :=
  mergeRows pixels alpha width height

/-- The alpha step of `qnt_extract`: merge a decompressed alpha plane, or
set byte 3 of pixel (0,0) to 0xff for `unfilter` to propagate. -/
def alphaStage (pixels : Nat → Nat) (alpha : Option (Nat → Nat))
    (width height : Nat) : Nat → Nat :=
  match alpha with
  | some a => merge_alpha_channel pixels a width height
  | none => upd pixels 3 255

/-- The `qnt_extract` after its two zlib decompressions (`raw` = pixel plane,
`alpha` = optional alpha plane): assemble, alpha step, then
`unfilter(pixels, qnt->width, qnt->height)` with the declared dimensions. -/
def qnt_extract_stage (width height : Nat) (raw : Nat → Nat)
    (alpha : Option (Nat → Nat)) : Nat → Nat :=
  unfilter (alphaStage (extract_pixels width height raw) alpha width height)
    width height

end Qnt

/-! ## Scene assembly (`model.ts`) -/

namespace Model

structure Group where
  start : Nat
  count : Nat
  materialIndex : Nat
deriving DecidableEq, Repr

structure GState where
  start : Nat
  materialIndex : Nat
  result : List Group
deriving DecidableEq, Repr

/-- The inner `while (triangles[i].material_index > materialIndex)` of
`initGroups`; the fuel `tmi - s.materialIndex` is exactly the number of
iterations. -/
def pushGroupsF : Nat → Nat → Nat → GState → GState
  | 0, _, _, s => s
  | fuel + 1, tmi, i, s =>
    if s.materialIndex < tmi then
      pushGroupsF fuel tmi i
        ⟨i, s.materialIndex + 1,
         s.result ++ [⟨s.start * 3, (i - s.start) * 3, s.materialIndex⟩]⟩
    else s

def pushGroups (tmi i : Nat) (s : GState) : GState :=
  pushGroupsF (tmi - s.materialIndex) tmi i s

/-- The `for (i = 0; ...)` loop over sorted triangles. -/
def groupLoop : List Triangle → Nat → GState → GState
  | [], _, s => s
  | t :: ts, i, s => groupLoop ts (i + 1) (pushGroups t.material_index i s)

/-- The trailing `while (materialIndex < materials.length)`. -/
def tailGroupsF : Nat → Nat → Nat → GState → GState
  | 0, _, _, s => s
  | fuel + 1, len, n, s =>
    if s.materialIndex < n then
      tailGroupsF fuel len n
        ⟨len, s.materialIndex + 1,
         s.result ++ [⟨s.start * 3, (len - s.start) * 3, s.materialIndex⟩]⟩
    else s

def tailGroups (len n : Nat) (s : GState) : GState :=
  tailGroupsF (n - s.materialIndex) len n s

/-- The group list built by `initGroups` from already-sorted triangles and
the material-array length `n`. -/
def buildGroups (ts : List Triangle) (n : Nat) : List Group :=
  (tailGroups ts.length n (groupLoop ts 0 ⟨0, 0, []⟩)).result

/-- Stable insertion by ascending `material_index`. -/
def insertTri (t : Triangle) : List Triangle → List Triangle
  | [] => [t]
  | u :: us =>
    if t.material_index ≤ u.material_index then t :: u :: us
    else u :: insertTri t us

/-- The `triangles.sort((a, b) => a.material_index - b.material_index)`:
stable ascending sort. -/
def sortTriangles : List Triangle → List Triangle
  | [] => []
  | t :: ts => insertTri t (sortTriangles ts)

/-- The `initGroups`.  `nrMaterials = none` models a single `THREE.Material`
(early `return null`, triangles untouched); `some n` models a material array
of length `n` (sort in place, then build groups).  The returned list is the
post-state of the `mesh.triangles` array. -/
def initGroups (nrMaterials : Option Nat) (triangles : List Triangle) :
    Option (List Group) × List Triangle :=
  match nrMaterials with
  | none => (none, triangles)
  | some n =>
    let sorted := sortTriangles triangles
    (some (buildGroups sorted n), sorted)

/-- The flat per-corner attribute streams pushed by `initMesh`; `none`
entries model JavaScript `undefined` reads. -/
structure VertexStream where
  positions : List (Option PVertex)
  uvs : List (Option PVec2)
  light_uvs : List (Option PVec2)
  colors : List (Option PVec3)
  alphas : List (Option RVal)
  normals : List (Option PVec3)
deriving Repr

/-- The triangle-corner expansion loop of `initMesh`, in triangle order. -/
def flattenMesh (mesh : PolMesh) (ts : List Triangle) : VertexStream where
  positions :=
    ts.flatMap (fun t => [0, 1, 2].map
      (fun i => t.vert_index[i]?.bind (fun vi => mesh.vertices[vi]?)))
  uvs :=
    ts.flatMap (fun t => [0, 1, 2].map
      (fun i => t.uv_index[i]?.bind (fun ui => mesh.uvs[ui]?)))
  light_uvs :=
    match mesh.light_uvs with
    | some luvs =>
      ts.flatMap (fun t => [0, 1, 2].map
        (fun i => t.light_uv_index[i]?.bind (fun li => jsIndex luvs li)))
    | none => []
  colors :=
    match mesh.colors with
    | some cl =>
      ts.flatMap (fun t => [0, 1, 2].map
        (fun i => t.color_index[i]?.bind (fun ci => cl[ci]?)))
    | none =>
      ts.flatMap (fun _ => [0, 1, 2].map
        (fun _ => some ⟨.num 1, .num 1, .num 1⟩))
  alphas :=
    match mesh.alphas with
    | some al =>
      ts.flatMap (fun t => [0, 1, 2].map
        (fun i => t.alpha_index[i]?.bind (fun ai => al[ai]?)))
    | none =>
      ts.flatMap (fun _ => [0, 1, 2].map (fun _ => some (.num 1)))
  normals :=
    ts.flatMap (fun t => [0, 1, 2].map (fun i => t.normals[i]?))

/-- The `initMesh` geometry phase: group construction (possibly sorting the
triangle array in place) followed by corner expansion of the resulting
array. -/
def initMeshStream (nrMaterials : Option Nat) (mesh : PolMesh) :
    Option (List Group) × VertexStream :=
  let (groups, ts) := initGroups nrMaterials mesh.triangles
  (groups, flattenMesh mesh ts)

/-- The frame-index computation `frameCount % (frames.length - 1) + 1` of
`applyMotion`, with JavaScript number semantics: a zero divisor yields NaN
(`none`); a negative divisor (empty frame list) yields remainder 0. -/
def jsFrameIndex (frameCount n : Nat) : Option Nat :=
  if n = 1 then none
  else some ((Int.tmod (frameCount : Nat) ((n : Int) - 1)).toNat + 1)

/-- The per-bone frame fetch `frames[frameCount % (frames.length - 1) + 1]`
of `applyMotion`; `none` models the undefined access (NaN index or
out-of-range) that makes `frame.pos` throw. -/
def applyMotionBoneFrame {α : Type} (frames : List α) (frameCount : Nat) :
    Option α :=
  match jsFrameIndex frameCount frames.length with
  | none => none
  | some i => frames[i]?

end Model

/-! ## Stated properties and concrete instances -/

/-- The per-triangle range conditions checked by `parse_triangle`, stated
against the table sizes passed to it. -/
def triRawValid (nr_vertices nr_uvs nr_light_uvs nr_colors nr_alphas : Nat)
    (t : Triangle) : Prop :=
  (∀ i ∈ t.vert_index, i < nr_vertices) ∧
  (∀ i ∈ t.uv_index, i < nr_uvs) ∧
  (∀ i ∈ t.light_uv_index, 0 ≤ i ∧ i < (nr_light_uvs : Int)) ∧
  (0 < nr_colors → ∀ i ∈ t.color_index, i < nr_colors) ∧
  (∀ i ∈ t.alpha_index, i < nr_alphas)

/-- Index validity of every triangle of a parsed mesh, against the mesh's own
attribute tables. -/
def meshValid (m : PolMesh) : Prop :=
  ∀ t ∈ m.triangles,
    (∀ i ∈ t.vert_index, i < m.vertices.length) ∧
    (∀ i ∈ t.uv_index, i < m.uvs.length) ∧
    (∀ l, m.light_uvs = some l →
      ∀ i ∈ t.light_uv_index, 0 ≤ i ∧ i < (l.length : Int)) ∧
    (∀ l, m.colors = some l → ∀ i ∈ t.color_index, i < l.length) ∧
    (∀ l, m.alphas = some l → ∀ i ∈ t.alpha_index, i < l.length)

namespace Model

/-- Total of the `count` fields of a group list. -/
def sumCounts (gs : List Group) : Nat := (gs.map (fun g => g.count)).sum

/-- The `chainEnd pos gs = some e` iff the groups' `start`s chain consecutively
from `pos` (each group starts where the previous one ended), ending at `e`. -/
def chainEnd (pos : Nat) : List Group → Option Nat
  | [] => some pos
  | g :: gs => if g.start = pos then chainEnd (pos + g.count) gs else none

/-- The `labelEnd k gs = some n` iff the groups' `materialIndex` labels are
exactly `k, k+1, …, n-1` in order. -/
def labelEnd (k : Nat) : List Group → Option Nat
  | [] => some k
  | g :: gs => if g.materialIndex = k then labelEnd (k + 1) gs else none

/-- Loop invariant of `initGroups`: the emitted groups tile `[0, start*3)`
and carry labels `0, …, materialIndex-1`. -/
def GInv (s : GState) : Prop :=
  chainEnd 0 s.result = some (s.start * 3) ∧
  labelEnd 0 s.result = some s.materialIndex

end Model

/-- Little-endian u32 byte encoding, for building concrete test buffers. -/
def u32le (n : Nat) : List Nat :=
  [n % 256, n / 256 % 256, n / 65536 % 256, n / 16777216 % 256]

/-- A concrete POL v2 file: no materials, one mesh (named `m`, material −1,
one vertex, one uv, one triangle, all-zero floats), no bones. -/
def demoPolBuf : List Nat :=
  [80, 79, 76, 0] ++ u32le 2 ++ u32le 0 ++ u32le 1 ++
  u32le 0 ++ [109, 0] ++ [255, 255, 255, 255] ++
  u32le 1 ++ List.replicate 12 0 ++ [0, 0] ++
  u32le 1 ++ List.replicate 8 0 ++
  u32le 0 ++ u32le 0 ++ u32le 0 ++
  u32le 1 ++ List.replicate 12 0 ++ List.replicate 12 0 ++
  List.replicate 12 0 ++ List.replicate 36 0 ++ u32le 0 ++
  u32le 0

/-- The parse result of `demoPolBuf`. -/
def demoPol : PolData where
  version := 2
  materials := []
  meshes :=
    [some
      { name := [109]
        attrs := {}
        material := -1
        vertices := [⟨.inches (.f32 0), .inches (.f32 0), .inches (.neg (.f32 0)), []⟩]
        uvs := [⟨.f32 0, .neg (.f32 0)⟩]
        light_uvs := none
        colors := none
        triangles :=
          [⟨[0, 0, 0], [0, 0, 0], [], [0, 0, 0], [],
            [⟨.f32 0, .f32 0, .neg (.f32 0)⟩, ⟨.f32 0, .f32 0, .neg (.f32 0)⟩,
             ⟨.f32 0, .f32 0, .neg (.f32 0)⟩], 0⟩]
        alphas := none }]
  bones := []

/-- A two-child material with empty names, for the submaterial-clamp
instance. -/
def demoMat2 : MaterialInfo :=
  .mk [] {} []
    [.mk [] {} [] [], .mk [] {} [] []]

/-- A concrete ZLB-framed archive entry payload: magic, version 0,
out_size 5, in_size 5, five payload bytes. -/
def demoZlbBuf : List Nat :=
  [90, 76, 66, 0] ++ u32le 0 ++ u32le 5 ++ u32le 5 ++ [1, 2, 3, 4, 5]

/-- A one-entry archive whose single compressed entry (`h`, type 0) spans the
whole blob. -/
def demoAar : AarModel where
  blob := demoZlbBuf
  version := 0
  entries := [⟨0, 21, 0, [104], none⟩]

/-- A zlib oracle that inflates the demo payload to `hello`. -/
def demoUn : List Nat → Nat → Nat → Option (List Nat) :=
  fun c cs cap =>
    if c = [1, 2, 3, 4, 5] ∧ cs = 5 ∧ cap = 5 then
      some [104, 101, 108, 108, 111]
    else none

/-- A concrete pixel buffer for unfilter instances. -/
def demoPix : Nat → Nat := fun j => (j * 5 + 3) % 256

/-- A decompressed QNT pixel plane for declared dimensions 1×1 (padded 2×2):
only plane byte 10 (channel 0, second pixel of the 2×2 block) is nonzero. -/
def demoQntRaw : Nat → Nat := fun j => if j = 10 then 1 else 0

/-! ## Theorems -/

/-- The `(e >>= f) = .ok b` unfolds to a successful intermediate result. -/
theorem exceptBind_ok {ε α β : Type} {e : Except ε α} {f : α → Except ε β}
    {b : β} : (e >>= f) = .ok b ↔ ∃ a, e = .ok a ∧ f a = .ok b := by
  cases e <;> simp [Bind.bind, Except.bind]

/-- C6.  For a motion bone with `frames.length ≥ 2`, `applyMotion` reads
frame index `frameCount % (frames.length − 1) + 1`, a valid index that is
never 0, so the T-pose frame is never played. -/
theorem applyMotion_frame_index_skips_tpose {α : Type} (frames : List α)
    (frameCount : Nat) (h : 2 ≤ frames.length) :
    ∃ hlt : frameCount % (frames.length - 1) + 1 < frames.length,
      Model.applyMotionBoneFrame frames frameCount =
        some (frames.get ⟨frameCount % (frames.length - 1) + 1, hlt⟩) ∧
      frameCount % (frames.length - 1) + 1 ≠ 0 := by
  have hpos : 0 < frames.length - 1 := by omega
  have hmod : frameCount % (frames.length - 1) < frames.length - 1 :=
    Nat.mod_lt _ hpos
  have hlt : frameCount % (frames.length - 1) + 1 < frames.length := by omega
  refine ⟨hlt, ?_, by omega⟩
  have hne : frames.length ≠ 1 := by omega
  have hcast : ((frames.length : Int) - 1) = ((frames.length - 1 : Nat) : Int) := by
    omega
  have htmod : Int.tmod (frameCount : Nat) ((frames.length : Int) - 1) =
      ((frameCount % (frames.length - 1) : Nat) : Int) := by
    rw [hcast, Int.tmod_eq_emod (by positivity) (by positivity)]
    exact (Int.natCast_mod _ _).symm
  simp only [Model.applyMotionBoneFrame, Model.jsFrameIndex, hne, if_false,
    htmod, Int.toNat_ofNat]
  exact List.getElem?_eq_getElem hlt

/-- C6 witness: with `frame_count = 3`, `applyMotion(0)` uses frame index 1,
`applyMotion(1)` uses index 2, `applyMotion(2)` uses index 1 again. -/
theorem applyMotion_frame_index_skips_tpose_witness :
    Model.applyMotionBoneFrame [(10 : Nat), 20, 30] 0 = some 20 ∧
    Model.applyMotionBoneFrame [(10 : Nat), 20, 30] 1 = some 30 ∧
    Model.applyMotionBoneFrame [(10 : Nat), 20, 30] 2 = some 20 := by
  obtain ⟨h1, e1, _⟩ :=
    applyMotion_frame_index_skips_tpose [(10 : Nat), 20, 30] 0 (by decide)
  obtain ⟨h2, e2, _⟩ :=
    applyMotion_frame_index_skips_tpose [(10 : Nat), 20, 30] 1 (by decide)
  obtain ⟨h3, e3, _⟩ :=
    applyMotion_frame_index_skips_tpose [(10 : Nat), 20, 30] 2 (by decide)
  exact ⟨e1, e2, e3⟩

/-- C9 (code bug).  With a single-frame motion, `applyMotion` computes
`i = (F mod 0) + 1 = NaN` and `frames[NaN]` is undefined, so the frame fetch
faults (`none`) instead of holding frame 0: the guard the claim requires is
absent from the code. -/
theorem applyMotion_single_frame_is_undefined_access {α : Type} (frame0 : α)
    (frameCount : Nat) :
    Model.applyMotionBoneFrame [frame0] frameCount = none := by
  simp [Model.applyMotionBoneFrame, Model.jsFrameIndex]

/-- C10.  For a single-material mesh, `initGroups` returns `null` before any
sort, so the triangle array — and hence every flattened per-corner stream —
keeps the parse order, and the parsed POL data is unmodified. -/
theorem initMesh_single_material_keeps_parse_order (mesh : PolMesh)
    (ts : List Triangle) :
    Model.initGroups none ts = (none, ts) ∧
    Model.initMeshStream none mesh =
      (none, Model.flattenMesh mesh mesh.triangles) ∧
    (Model.initMeshStream none mesh).2.positions =
      mesh.triangles.flatMap (fun t => [0, 1, 2].map
        (fun i => t.vert_index[i]?.bind (fun vi => mesh.vertices[vi]?))) :=
  ⟨rfl, rfl, rfl⟩

/-- C7.  The stored submaterial index is the u32 read from the file when the
material is absent, has no children, or the value is below the child count;
it is clamped to 0 when the material has children and the value is at or
above the child count. -/
theorem parse_submaterial_clamp (material : Option MaterialInfo)
    (r : BufferReader) (mi : Nat) (r' : BufferReader)
    (h : Pol.parse_submaterial material r = .ok (mi, r')) :
    ∃ raw, r.readU32 = .ok (raw, r') ∧
      mi = Pol.clampSubmaterial material raw ∧
      (∀ m, material = some m → raw < m.children.length → mi = raw) ∧
      (∀ m, material = some m → 0 < m.children.length →
        m.children.length ≤ raw → mi = 0) ∧
      (∀ m, material = some m → m.children.length = 0 → mi = raw) ∧
      (material = none → mi = raw) := by
  rw [Pol.parse_submaterial, exceptBind_ok] at h
  obtain ⟨⟨raw, r₁⟩, hread, h⟩ := h
  simp only [Except.ok.injEq, Prod.mk.injEq] at h
  obtain ⟨hmi, hr⟩ := h
  subst hr
  refine ⟨raw, hread, hmi.symm, ?_, ?_, ?_, ?_⟩
  · rintro m rfl hlt
    simp only [Pol.clampSubmaterial] at hmi
    rw [if_neg (by omega)] at hmi
    omega
  · rintro m rfl hpos hge
    simp only [Pol.clampSubmaterial] at hmi
    rw [if_pos (And.intro hpos hge)] at hmi
    omega
  · rintro m rfl hzero
    simp only [Pol.clampSubmaterial] at hmi
    rw [if_neg (by omega)] at hmi
    omega
  · rintro rfl
    simp only [Pol.clampSubmaterial] at hmi
    omega

/-- C7 witness: reading raw submaterial index 5 against a two-child material
clamps to 0. -/
theorem parse_submaterial_clamp_witness :
    ∃ raw, BufferReader.readU32 ⟨[5, 0, 0, 0], 0⟩ =
        .ok (raw, ⟨[5, 0, 0, 0], 4⟩) ∧
      0 = Pol.clampSubmaterial (some demoMat2) raw ∧
      (∀ m, some demoMat2 = some m → raw < m.children.length → 0 = raw) ∧
      (∀ m, some demoMat2 = some m → 0 < m.children.length →
        m.children.length ≤ raw → 0 = 0) ∧
      (∀ m, some demoMat2 = some m → m.children.length = 0 → 0 = raw) ∧
      (some demoMat2 = none → 0 = raw) :=
  parse_submaterial_clamp (some demoMat2) ⟨[5, 0, 0, 0], 0⟩ 0
    ⟨[5, 0, 0, 0], 4⟩ (by rfl)

/-- A successful `readU32` advances the cursor by exactly 4. -/
theorem readU32_ok_reader {r : BufferReader} {v : Nat} {r' : BufferReader}
    (h : r.readU32 = .ok (v, r')) : r' = ⟨r.data, r.offset + 4⟩ := by
  unfold BufferReader.readU32 at h
  split at h
  · injection h with h'
    injection h' with _ h2
    exact h2.symm
  · exact absurd h (by simp)

/-- A successful `readFourCC` advances the cursor by exactly 4. -/
theorem readFourCC_ok_reader {r : BufferReader} {cc : List Nat}
    {r' : BufferReader} (h : r.readFourCC = .ok (cc, r')) :
    r' = ⟨r.data, r.offset + 4⟩ := by
  unfold BufferReader.readFourCC at h
  split at h
  · injection h with h'
    injection h' with _ h2
    exact h2.symm
  · exact absurd h (by simp)

/-- A successful `readFourCC` at offset 0 returns the buffer's first four
bytes. -/
theorem readFourCC_at_zero {buf cc : List Nat} {r' : BufferReader}
    (h : BufferReader.readFourCC ⟨buf, 0⟩ = .ok (cc, r')) :
    buf.take 4 = cc := by
  rcases buf with _ | ⟨b0, _ | ⟨b1, _ | ⟨b2, _ | ⟨b3, rest⟩⟩⟩⟩ <;>
    simp_all [BufferReader.readFourCC]

/-- The `decompress` only returns a buffer of exactly the requested size. -/
theorem decompressC_some_length {un : List Nat → Nat → Nat → Option (List Nat)}
    {c : List Nat} {cs rs : Nat} {data : List Nat}
    (h : Aar.decompressC un c cs rs = some data) : data.length = rs := by
  unfold Aar.decompressC at h
  split at h
  · exact absurd h (by simp)
  · split at h
    · injection h with h'
      subst h'
      assumption
    · exact absurd h (by simp)

/-- Anatomy of a successful `inflateEntry`: the ZLB magic and version-0
header were present, `in_size + 16` matched the entry size, and the result
came from `decompress` at the header's `out_size`. -/
theorem inflateEntry_ok {un : List Nat → Nat → Nat → Option (List Nat)}
    {blob : List Nat} {e : AarEntry} {out : List Nat}
    (h : Aar.inflateEntry un blob e = .ok out) :
    ∃ outSize inSize,
      (Aar.readEntry blob e).take 4 = [90, 76, 66, 0] ∧
      (∃ r', BufferReader.readU32 ⟨Aar.readEntry blob e, 4⟩ = .ok (0, r')) ∧
      BufferReader.readU32 ⟨Aar.readEntry blob e, 8⟩ =
        .ok (outSize, ⟨Aar.readEntry blob e, 12⟩) ∧
      BufferReader.readU32 ⟨Aar.readEntry blob e, 12⟩ =
        .ok (inSize, ⟨Aar.readEntry blob e, 16⟩) ∧
      inSize + 16 = e.size ∧
      Aar.decompressC un ((Aar.readEntry blob e).drop 16) inSize outSize =
        some out ∧
      out.length = outSize := by
  unfold Aar.inflateEntry at h
  simp only [] at h
  cases hcc : BufferReader.readFourCC ⟨Aar.readEntry blob e, 0⟩ with
  | error er => rw [hcc] at h; exact absurd h (by simp)
  | ok p =>
    obtain ⟨cc, r1⟩ := p
    have hr1 : r1 = ⟨Aar.readEntry blob e, 4⟩ := readFourCC_ok_reader hcc
    subst hr1
    rw [hcc] at h
    simp only at h
    split at h
    · exact absurd h (by simp)
    · rename_i hmagic
      cases hver : BufferReader.readU32 ⟨Aar.readEntry blob e, 4⟩ with
      | error er => rw [hver] at h; exact absurd h (by simp)
      | ok p =>
        obtain ⟨ver, r2⟩ := p
        have hr2 : r2 = ⟨Aar.readEntry blob e, 8⟩ := by
          have := readU32_ok_reader hver
          simpa using this
        subst hr2
        rw [hver] at h
        simp only at h
        split at h
        · exact absurd h (by simp)
        · rename_i hver0
          cases hout : BufferReader.readU32 ⟨Aar.readEntry blob e, 8⟩ with
          | error er => rw [hout] at h; exact absurd h (by simp)
          | ok p =>
            obtain ⟨outSize, r3⟩ := p
            have hr3 : r3 = ⟨Aar.readEntry blob e, 12⟩ := by
              have := readU32_ok_reader hout
              simpa using this
            subst hr3
            rw [hout] at h
            simp only at h
            cases hin : BufferReader.readU32 ⟨Aar.readEntry blob e, 12⟩ with
            | error er => rw [hin] at h; exact absurd h (by simp)
            | ok p =>
              obtain ⟨inSize, r4⟩ := p
              have hr4 : r4 = ⟨Aar.readEntry blob e, 16⟩ := by
                have := readU32_ok_reader hin
                simpa using this
              subst hr4
              rw [hin] at h
              simp only at h
              split at h
              · exact absurd h (by simp)
              · rename_i hsize
                cases hdec : Aar.decompressC un
                    ((Aar.readEntry blob e).drop 16) inSize outSize with
                | none => rw [hdec] at h; exact absurd h (by simp)
                | some raw =>
                  rw [hdec] at h
                  simp only [Except.ok.injEq] at h
                  subst h
                  have hv0 : ver = 0 := by
                    by_contra hne
                    exact hver0 hne
                  refine ⟨outSize, inSize, ?_,
                    ⟨⟨Aar.readEntry blob e, 8⟩, by rw [hv0]⟩, rfl, rfl,
                    by omega, hdec, decompressC_some_length hdec⟩
                  have htake := readFourCC_at_zero hcc
                  push_neg at hmagic
                  rw [htake, hmagic]

/-- C3.  `Aar.load` on a `Compressed` entry returns exactly the ZLB header's
`out_size` bytes, and fails on a bad `ZLB\0` magic, a nonzero ZLB version,
`in_size + 16 ≠ entry.size`, or a failed/size-mismatched decompression; a
`Raw` entry returns the sliced bytes unchanged; any other entry type fails
with the not-implemented error. -/
theorem aar_load_spec
    (un : List Nat → Nat → Nat → Option (List Nat))
    (lc : List Nat → List Nat) (ar : AarModel) (name : List Nat) (e : AarEntry)
    (he : Aar.mapGet (Aar.buildMap lc ar.entries) (lc name) = some e) :
    Aar.load un lc ar name = Aar.loadEntry un ar.blob e ∧
    (e.type = 1 → Aar.loadEntry un ar.blob e = .ok (Aar.readEntry ar.blob e)) ∧
    (e.type ≠ 0 → e.type ≠ 1 →
      Aar.loadEntry un ar.blob e = .error .notImplemented) ∧
    (e.type = 0 →
      (∀ out, Aar.loadEntry un ar.blob e = .ok out →
        ∃ r', BufferReader.readU32 ⟨Aar.readEntry ar.blob e, 8⟩ =
          .ok (out.length, r')) ∧
      ((Aar.readEntry ar.blob e).take 4 ≠ [90, 76, 66, 0] →
        ∃ er, Aar.loadEntry un ar.blob e = .error er) ∧
      (∀ ver r', BufferReader.readU32 ⟨Aar.readEntry ar.blob e, 4⟩ =
          .ok (ver, r') → ver ≠ 0 →
        ∃ er, Aar.loadEntry un ar.blob e = .error er) ∧
      (∀ inSize r', BufferReader.readU32 ⟨Aar.readEntry ar.blob e, 12⟩ =
          .ok (inSize, r') → inSize + 16 ≠ e.size →
        ∃ er, Aar.loadEntry un ar.blob e = .error er) ∧
      (∀ outSize r₁ inSize r₂,
        BufferReader.readU32 ⟨Aar.readEntry ar.blob e, 8⟩ = .ok (outSize, r₁) →
        BufferReader.readU32 ⟨Aar.readEntry ar.blob e, 12⟩ = .ok (inSize, r₂) →
        Aar.decompressC un ((Aar.readEntry ar.blob e).drop 16) inSize outSize =
          none →
        ∃ er, Aar.loadEntry un ar.blob e = .error er)) := by
  refine ⟨by simp [Aar.load, he], ?_, ?_, ?_⟩
  · intro h1
    simp [Aar.loadEntry, h1]
  · intro h0 h1
    simp [Aar.loadEntry, h0, h1]
  · intro h0
    have hle : Aar.loadEntry un ar.blob e = Aar.inflateEntry un ar.blob e := by
      simp [Aar.loadEntry, h0]
    rw [hle]
    refine ⟨?_, ?_, ?_, ?_, ?_⟩
    · intro out hok
      obtain ⟨outSize, inSize, _, _, hout, _, _, _, hlen⟩ := inflateEntry_ok hok
      exact ⟨⟨Aar.readEntry ar.blob e, 12⟩, by rw [hlen]; exact hout⟩
    · intro hbad
      cases hres : Aar.inflateEntry un ar.blob e with
      | error er => exact ⟨er, rfl⟩
      | ok out =>
        obtain ⟨_, _, htake, _, _, _, _, _, _⟩ := inflateEntry_ok hres
        exact absurd htake hbad
    · intro ver r' hv hvne
      cases hres : Aar.inflateEntry un ar.blob e with
      | error er => exact ⟨er, rfl⟩
      | ok out =>
        obtain ⟨_, _, _, ⟨r'', hver⟩, _, _, _, _, _⟩ := inflateEntry_ok hres
        rw [hv] at hver
        simp only [Except.ok.injEq, Prod.mk.injEq] at hver
        exact absurd hver.1 hvne
    · intro inSize r' hi hine
      cases hres : Aar.inflateEntry un ar.blob e with
      | error er => exact ⟨er, rfl⟩
      | ok out =>
        obtain ⟨_, inSize', _, _, _, hin, hsize, _, _⟩ := inflateEntry_ok hres
        rw [hi] at hin
        simp only [Except.ok.injEq, Prod.mk.injEq] at hin
        exact absurd (hin.1 ▸ hsize) hine
    · intro outSize r₁ inSize r₂ ho hi hdn
      cases hres : Aar.inflateEntry un ar.blob e with
      | error er => exact ⟨er, rfl⟩
      | ok out =>
        obtain ⟨outSize', inSize', _, _, hout, hin, _, hdec, _⟩ :=
          inflateEntry_ok hres
        rw [ho] at hout
        rw [hi] at hin
        simp only [Except.ok.injEq, Prod.mk.injEq] at hout hin
        rw [← hout.1, ← hin.1] at hdec
        rw [hdn] at hdec
        exact absurd hdec (by simp)

/-- C3 witness: the demo archive's compressed entry inflates to five bytes
(`hello`), matching its `out_size` field. -/
theorem aar_load_spec_witness :
    (Aar.load demoUn Aar.asciiLower demoAar [104] =
      Aar.loadEntry demoUn demoAar.blob ⟨0, 21, 0, [104], none⟩) ∧
    Aar.load demoUn Aar.asciiLower demoAar [104] =
      .ok [104, 101, 108, 108, 111] ∧
    (∃ r', BufferReader.readU32
        ⟨Aar.readEntry demoAar.blob ⟨0, 21, 0, [104], none⟩, 8⟩ =
      .ok (([104, 101, 108, 108, 111] : List Nat).length, r')) := by
  obtain ⟨hload, _, _, hcomp⟩ :=
    aar_load_spec demoUn Aar.asciiLower demoAar [104] ⟨0, 21, 0, [104], none⟩
      (by rfl)
  obtain ⟨hok, _, _, _, _⟩ := hcomp rfl
  refine ⟨hload, by rfl, ?_⟩
  exact hok [104, 101, 108, 108, 111] (by rfl)

/-- Setting a fresh key appends to the map. -/
theorem mapSet_fresh (m : List (List Nat × AarEntry)) (k : List Nat)
    (v : AarEntry) (h : ∀ p ∈ m, p.1 ≠ k) :
    Aar.mapSet m k v = m ++ [(k, v)] := by
  induction m with
  | nil => rfl
  | cons p rest ih =>
    obtain ⟨k', v'⟩ := p
    have hne : k' ≠ k := h (k', v') (by simp)
    simp only [Aar.mapSet, if_neg hne, List.cons_append, List.cons.injEq,
      true_and]
    exact ih (fun q hq => h q (by simp [hq]))

/-- With pairwise-distinct lowered names, the constructor's map is just the
entry list keyed by lowered name. -/
theorem buildMapFrom_eq (lc : List Nat → List Nat) :
    ∀ (es : List AarEntry) (m : List (List Nat × AarEntry)),
    (∀ p ∈ m, ∀ e ∈ es, p.1 ≠ lc e.name) →
    ((es.map fun e => lc e.name).Pairwise (· ≠ ·)) →
    Aar.buildMapFrom lc m es = m ++ es.map (fun e => (lc e.name, e)) := by
  intro es
  induction es with
  | nil => intro m _ _; simp [Aar.buildMapFrom]
  | cons e rest ih =>
    intro m hfresh hpair
    have hset : Aar.mapSet m (lc e.name) e = m ++ [(lc e.name, e)] :=
      mapSet_fresh m (lc e.name) e
        (fun p hp => hfresh p hp e (by simp))
    have hpair' : (∀ a ∈ rest, ¬ lc e.name = lc a.name) ∧
        ((rest.map fun e => lc e.name).Pairwise (· ≠ ·)) := by
      simpa using hpair
    simp only [Aar.buildMapFrom, hset]
    rw [ih (m ++ [(lc e.name, e)]) ?_ hpair'.2]
    · simp
    · intro p hp e' he'
      rcases List.mem_append.mp hp with hmem | hmem
      · exact hfresh p hmem e' (by simp [he'])
      · simp only [List.mem_singleton] at hmem
        subst hmem
        exact hpair'.1 e' he'

/-- Lookup in the keyed entry list returns the unique entry with that
lowered name. -/
theorem mapGet_pairs (lc : List Nat → List Nat) :
    ∀ (entries : List AarEntry),
    ((entries.map fun e => lc e.name).Pairwise (· ≠ ·)) →
    ∀ e ∈ entries,
    Aar.mapGet (entries.map (fun e => (lc e.name, e))) (lc e.name) = some e := by
  intro entries
  induction entries with
  | nil => intro _ e he; exact absurd he (by simp)
  | cons a rest ih =>
    intro hpair e he
    have hpair' : (∀ x ∈ rest, ¬ lc a.name = lc x.name) ∧
        ((rest.map fun e => lc e.name).Pairwise (· ≠ ·)) := by
      simpa using hpair
    rcases List.mem_cons.mp he with rfl | hmem
    · simp [Aar.mapGet]
    · have hne : lc a.name ≠ lc e.name := hpair'.1 e hmem
      simp only [List.map_cons, Aar.mapGet, if_neg hne]
      exact ih hpair'.2 e hmem

/-- C5 (amended).  When the entries' lowered names are pairwise distinct, any
string with the same lowering as an entry's name resolves to that entry, and
`filenames()` returns the original non-lowered names in insertion order. -/
theorem aar_lookup_case_insensitive
    (un : List Nat → Nat → Nat → Option (List Nat))
    (lc : List Nat → List Nat) (ar : AarModel) (e : AarEntry) (s : List Nat)
    (hdist : (ar.entries.map fun e => lc e.name).Pairwise (· ≠ ·))
    (he : e ∈ ar.entries) (hs : lc s = lc e.name) :
    Aar.mapGet (Aar.buildMap lc ar.entries) (lc s) = some e ∧
    Aar.load un lc ar s = Aar.loadEntry un ar.blob e ∧
    Aar.filenames lc ar.entries = ar.entries.map (fun e => e.name) := by
  have hbm : Aar.buildMap lc ar.entries =
      ar.entries.map (fun e => (lc e.name, e)) := by
    have := buildMapFrom_eq lc ar.entries [] (by simp) hdist
    simpa [Aar.buildMap] using this
  have hget : Aar.mapGet (Aar.buildMap lc ar.entries) (lc s) = some e := by
    rw [hbm, hs]
    exact mapGet_pairs lc ar.entries hdist e he
  refine ⟨hget, ?_, ?_⟩
  · simp [Aar.load, hget]
  · rw [Aar.filenames, hbm, List.map_map]
    rfl

/-- C5 witness: a two-entry archive with distinct lowered names: `load "B"`
resolves the entry named `b`, and `filenames()` is `["A", "b"]`. -/
theorem aar_lookup_case_insensitive_witness :
    (Aar.mapGet (Aar.buildMap Aar.asciiLower
        [⟨0, 4, 1, [65], none⟩, ⟨4, 4, 1, [98], none⟩])
      (Aar.asciiLower [66]) = some ⟨4, 4, 1, [98], none⟩) ∧
    Aar.load demoUn Aar.asciiLower
        ⟨[9, 9, 9, 9, 9, 9, 9, 9], 0,
          [⟨0, 4, 1, [65], none⟩, ⟨4, 4, 1, [98], none⟩]⟩ [66] =
      Aar.loadEntry demoUn [9, 9, 9, 9, 9, 9, 9, 9] ⟨4, 4, 1, [98], none⟩ ∧
    Aar.filenames Aar.asciiLower
        [⟨0, 4, 1, [65], none⟩, ⟨4, 4, 1, [98], none⟩] =
      [[65], [98]] := by
  obtain ⟨h1, h2, h3⟩ :=
    aar_lookup_case_insensitive demoUn Aar.asciiLower
      ⟨[9, 9, 9, 9, 9, 9, 9, 9], 0,
        [⟨0, 4, 1, [65], none⟩, ⟨4, 4, 1, [98], none⟩]⟩
      ⟨4, 4, 1, [98], none⟩ [66] (by decide) (by decide) (by decide)
  exact ⟨h1, h2, h3⟩

/-- C5 counterexample: with two entries whose names lower to the same key
(`A` and `a`), the later entry overwrites the map slot, so lookup of `A`
resolves to the *second* entry, not the first, and `filenames()` collapses
to a single (second) name — the claim fails as stated. -/
theorem aar_lookup_collision_counterexample :
    Aar.asciiLower [65] = Aar.asciiLower (([65] : List Nat)) ∧
    Aar.mapGet (Aar.buildMap Aar.asciiLower
        [⟨0, 4, 1, [65], none⟩, ⟨4, 4, 1, [97], none⟩])
      (Aar.asciiLower [65]) = some ⟨4, 4, 1, [97], none⟩ ∧
    Aar.mapGet (Aar.buildMap Aar.asciiLower
        [⟨0, 4, 1, [65], none⟩, ⟨4, 4, 1, [97], none⟩])
      (Aar.asciiLower [65]) ≠ some ⟨0, 4, 1, [65], none⟩ ∧
    Aar.filenames Aar.asciiLower
        [⟨0, 4, 1, [65], none⟩, ⟨4, 4, 1, [97], none⟩] ≠
      [[65], [97]] := by
  refine ⟨rfl, by rfl, ?_, ?_⟩ <;> decide

/-- Appending one group to a chained list extends the chain exactly when the
new group starts at the old end. -/
theorem chainEnd_append (pos : Nat) (gs : List Model.Group) (g : Model.Group) :
    Model.chainEnd pos (gs ++ [g]) =
      match Model.chainEnd pos gs with
      | some e => if g.start = e then some (e + g.count) else none
      | none => none := by
  induction gs generalizing pos with
  | nil => simp [Model.chainEnd]
  | cons a rest ih =>
    simp only [List.cons_append, Model.chainEnd]
    split
    · exact ih _
    · rfl

/-- Appending one group to a labelled list extends the labels exactly when
the new group carries the next label. -/
theorem labelEnd_append (k : Nat) (gs : List Model.Group) (g : Model.Group) :
    Model.labelEnd k (gs ++ [g]) =
      match Model.labelEnd k gs with
      | some e => if g.materialIndex = e then some (e + 1) else none
      | none => none := by
  induction gs generalizing k with
  | nil => simp [Model.labelEnd]
  | cons a rest ih =>
    simp only [List.cons_append, Model.labelEnd]
    split
    · exact ih _
    · rfl

/-- Consecutive labels from `k` ending at `n` mean exactly `n - k` groups. -/
theorem labelEnd_length : ∀ (gs : List Model.Group) (k n : Nat),
    Model.labelEnd k gs = some n → n = k + gs.length := by
  intro gs
  induction gs with
  | nil => intro k n h; simp [Model.labelEnd] at h; simp; omega
  | cons g rest ih =>
    intro k n h
    simp only [Model.labelEnd] at h
    split at h
    · have := ih (k + 1) n h
      simp [this]
      omega
    · exact absurd h (by simp)

/-- A chain from `pos` ending at `e` has total count `e - pos`. -/
theorem chainEnd_sum : ∀ (gs : List Model.Group) (pos e : Nat),
    Model.chainEnd pos gs = some e → e = pos + Model.sumCounts gs := by
  intro gs
  induction gs with
  | nil => intro pos e h; simp [Model.chainEnd] at h; simp [Model.sumCounts]; omega
  | cons g rest ih =>
    intro pos e h
    simp only [Model.chainEnd] at h
    split at h
    · have := ih (pos + g.count) e h
      simp only [Model.sumCounts, List.map_cons, List.sum_cons] at this ⊢
      omega
    · exact absurd h (by simp)

/-- The inner while loop of `initGroups` preserves the invariant, keeps
`start ≤ i`, and raises `materialIndex` to `max materialIndex tmi`. -/
theorem pushGroupsF_spec : ∀ (fuel tmi i : Nat) (s : Model.GState),
    tmi - s.materialIndex ≤ fuel → Model.GInv s → s.start ≤ i →
    Model.GInv (Model.pushGroupsF fuel tmi i s) ∧
    (Model.pushGroupsF fuel tmi i s).start ≤ i ∧
    (Model.pushGroupsF fuel tmi i s).materialIndex =
      max s.materialIndex tmi := by
  intro fuel
  induction fuel with
  | zero =>
    intro tmi i s hf hinv hle
    simp only [Model.pushGroupsF]
    exact ⟨hinv, hle, by omega⟩
  | succ fuel ih =>
    intro tmi i s hf hinv hle
    simp only [Model.pushGroupsF]
    split
    · rename_i hlt
      have hinv' : Model.GInv ⟨i, s.materialIndex + 1,
          s.result ++ [⟨s.start * 3, (i - s.start) * 3, s.materialIndex⟩]⟩ := by
        obtain ⟨hc, hl⟩ := hinv
        constructor
        · show Model.chainEnd 0 _ = _
          rw [chainEnd_append, hc]
          have h3 : s.start * 3 + (i - s.start) * 3 = i * 3 := by omega
          simp [h3]
        · show Model.labelEnd 0 _ = _
          rw [labelEnd_append, hl]
          simp
      have hrec := ih tmi i _ (by simp; omega) hinv' (by simp)
      refine ⟨hrec.1, hrec.2.1, ?_⟩
      have h22 := hrec.2.2
      simp only at h22
      rw [h22]
      omega
    · rename_i hge
      exact ⟨hinv, hle, by omega⟩

/-- The `pushGroups` instance of the inner-loop invariant. -/
theorem pushGroups_spec (tmi i : Nat) (s : Model.GState)
    (hinv : Model.GInv s) (hle : s.start ≤ i) :
    Model.GInv (Model.pushGroups tmi i s) ∧
    (Model.pushGroups tmi i s).start ≤ i ∧
    (Model.pushGroups tmi i s).materialIndex = max s.materialIndex tmi :=
  pushGroupsF_spec (tmi - s.materialIndex) tmi i s (Nat.le_refl _) hinv hle

/-- The main triangle loop of `initGroups` keeps the invariant, advances
`start` at most to the end of the list, and keeps `materialIndex` below the
material count when every triangle's submaterial index is. -/
theorem groupLoop_spec (n : Nat) : ∀ (ts : List Triangle) (i : Nat)
    (s : Model.GState),
    Model.GInv s → s.start ≤ i → s.materialIndex < n →
    (∀ t ∈ ts, t.material_index < n) →
    Model.GInv (Model.groupLoop ts i s) ∧
    (Model.groupLoop ts i s).start ≤ i + ts.length ∧
    (Model.groupLoop ts i s).materialIndex < n := by
  intro ts
  induction ts with
  | nil =>
    intro i s h1 h2 h3 _
    simp only [Model.groupLoop]
    exact ⟨h1, by omega, h3⟩
  | cons t rest ih =>
    intro i s h1 h2 h3 hmi
    simp only [Model.groupLoop]
    obtain ⟨hp1, hp2, hp3⟩ := pushGroups_spec t.material_index i s h1 h2
    have hmt : t.material_index < n := hmi t (by simp)
    have hrec := ih (i + 1) _ hp1 (by omega)
      (by rw [hp3]; omega)
      (fun u hu => hmi u (by simp [hu]))
    refine ⟨hrec.1, by have := hrec.2.1; simp at this ⊢; omega, hrec.2.2⟩

/-- The trailing while loop of `initGroups`: pads with (possibly empty)
groups up to the material count. -/
theorem tailGroupsF_spec : ∀ (fuel len n : Nat) (s : Model.GState),
    n - s.materialIndex ≤ fuel → Model.GInv s → s.start ≤ len →
    Model.GInv (Model.tailGroupsF fuel len n s) ∧
    (Model.tailGroupsF fuel len n s).materialIndex = max s.materialIndex n ∧
    (s.materialIndex < n → (Model.tailGroupsF fuel len n s).start = len) ∧
    (n ≤ s.materialIndex → Model.tailGroupsF fuel len n s = s) := by
  intro fuel
  induction fuel with
  | zero =>
    intro len n s hf hinv hle
    refine ⟨?_, ?_, ?_, ?_⟩ <;> simp only [Model.tailGroupsF]
    · exact hinv
    · omega
    · intro h
      omega
    · intro _
      trivial
  | succ fuel ih =>
    intro len n s hf hinv hle
    have hinv' : Model.GInv ⟨len, s.materialIndex + 1,
        s.result ++ [⟨s.start * 3, (len - s.start) * 3, s.materialIndex⟩]⟩ := by
      obtain ⟨hc, hl⟩ := hinv
      constructor
      · show Model.chainEnd 0 _ = _
        rw [chainEnd_append, hc]
        have h3 : s.start * 3 + (len - s.start) * 3 = len * 3 := by omega
        simp [h3]
      · show Model.labelEnd 0 _ = _
        rw [labelEnd_append, hl]
        simp
    refine ⟨?_, ?_, ?_, ?_⟩ <;> simp only [Model.tailGroupsF]
    · split
      · exact (ih len n _ (by simp; omega) hinv' (by simp)).1
      · exact hinv
    · split
      · rename_i hlt
        have h21 := (ih len n _ (by simp; omega) hinv' (by simp)).2.1
        simp only at h21
        rw [h21]
        omega
      · omega
    · intro hlt
      rw [if_pos hlt]
      have hrec := ih len n _ (by simp; omega) hinv' (by simp)
      rcases Nat.lt_or_ge (s.materialIndex + 1) n with hlt' | hge'
      · have := hrec.2.2.1 (by simpa using hlt')
        exact this
      · have heq := hrec.2.2.2 (by simpa using hge')
        rw [heq]
    · intro hge
      rw [if_neg (by omega)]

/-- The `tailGroups` instance. -/
theorem tailGroups_spec (len n : Nat) (s : Model.GState)
    (hinv : Model.GInv s) (hle : s.start ≤ len) :
    Model.GInv (Model.tailGroups len n s) ∧
    (Model.tailGroups len n s).materialIndex = max s.materialIndex n ∧
    (s.materialIndex < n → (Model.tailGroups len n s).start = len) :=
  let h := tailGroupsF_spec (n - s.materialIndex) len n s (Nat.le_refl _)
    hinv hle
  ⟨h.1, h.2.1, h.2.2.1⟩

/-- For a positive material count and in-range submaterial indices, the
groups built by `initGroups` tile `[0, 3·len)` with labels `0, …, n−1`. -/
theorem buildGroups_spec (ts : List Triangle) (n : Nat) (hn : 0 < n)
    (hmi : ∀ t ∈ ts, t.material_index < n) :
    Model.chainEnd 0 (Model.buildGroups ts n) = some (3 * ts.length) ∧
    Model.labelEnd 0 (Model.buildGroups ts n) = some n ∧
    (Model.buildGroups ts n).length = n ∧
    Model.sumCounts (Model.buildGroups ts n) = 3 * ts.length := by
  have hinv0 : Model.GInv ⟨0, 0, []⟩ := by
    constructor <;> simp [Model.chainEnd, Model.labelEnd]
  obtain ⟨h1, h2, h3⟩ := groupLoop_spec n ts 0 ⟨0, 0, []⟩ hinv0 (by simp) hn hmi
  obtain ⟨t1, t2, t3⟩ := tailGroups_spec ts.length n _ h1 (by simpa using h2)
  have hstart : (Model.tailGroups ts.length n (Model.groupLoop ts 0 ⟨0, 0, []⟩)).start
      = ts.length := t3 h3
  have hmi' : (Model.tailGroups ts.length n (Model.groupLoop ts 0 ⟨0, 0, []⟩)).materialIndex
      = n := by rw [t2]; omega
  obtain ⟨c1, c2⟩ := t1
  rw [Model.buildGroups]
  rw [hstart] at c1
  rw [hmi'] at c2
  have hch : Model.chainEnd 0
      (Model.tailGroups ts.length n (Model.groupLoop ts 0 ⟨0, 0, []⟩)).result =
      some (3 * ts.length) := by rw [c1]; ring_nf
  refine ⟨hch, c2, ?_, ?_⟩
  · have := labelEnd_length _ 0 n c2
    omega
  · have := chainEnd_sum _ 0 (3 * ts.length) hch
    omega

/-- Membership through stable insertion. -/
theorem insertTri_mem (t u : Triangle) : ∀ (l : List Triangle),
    (u ∈ Model.insertTri t l ↔ u = t ∨ u ∈ l) := by
  intro l
  induction l with
  | nil => simp [Model.insertTri]
  | cons a rest ih =>
    simp only [Model.insertTri]
    split
    · simp
    · simp only [List.mem_cons, ih]
      tauto

/-- Sorting preserves membership. -/
theorem sortTriangles_mem (u : Triangle) : ∀ (ts : List Triangle),
    (u ∈ Model.sortTriangles ts ↔ u ∈ ts) := by
  intro ts
  induction ts with
  | nil => simp [Model.sortTriangles]
  | cons t rest ih =>
    simp [Model.sortTriangles, insertTri_mem, ih]

/-- Insertion adds one element. -/
theorem insertTri_length (t : Triangle) : ∀ (l : List Triangle),
    (Model.insertTri t l).length = l.length + 1 := by
  intro l
  induction l with
  | nil => rfl
  | cons a rest ih =>
    simp only [Model.insertTri]
    split
    · simp
    · simp [ih]

/-- Sorting preserves length. -/
theorem sortTriangles_length : ∀ (ts : List Triangle),
    (Model.sortTriangles ts).length = ts.length := by
  intro ts
  induction ts with
  | nil => rfl
  | cons t rest ih => simp [Model.sortTriangles, insertTri_length, ih]

/-- C4 (amended).  For a mesh whose material resolves to a *nonempty* list of
`n` sub-materials and whose triangles' submaterial indices are all below `n`
(which the parser's clamp guarantees), `initGroups` sorts the triangles and
emits exactly one group per sub-material, labelled `0, …, n−1`, whose
`start`s tile the flattened corner range and whose `count`s sum to
`3 × triangles.length`. -/
theorem initGroups_partitions_corners (n : Nat) (ts : List Triangle)
    (hn : 0 < n) (hmi : ∀ t ∈ ts, t.material_index < n) :
    ∃ gs, Model.initGroups (some n) ts = (some gs, Model.sortTriangles ts) ∧
      gs.length = n ∧
      Model.sumCounts gs = 3 * ts.length ∧
      Model.chainEnd 0 gs = some (3 * ts.length) ∧
      Model.labelEnd 0 gs = some n := by
  have hmi' : ∀ t ∈ Model.sortTriangles ts, t.material_index < n :=
    fun t ht => hmi t ((sortTriangles_mem t ts).mp ht)
  obtain ⟨h1, h2, h3, h4⟩ := buildGroups_spec (Model.sortTriangles ts) n hn hmi'
  rw [sortTriangles_length ts] at h1 h4
  exact ⟨Model.buildGroups (Model.sortTriangles ts) n, rfl, h3, h4, h1, h2⟩

/-- C4 witness: two sub-materials, two triangles with submaterial indices 1
and 0. -/
theorem initGroups_partitions_corners_witness :
    ∃ gs, Model.initGroups (some 2)
        [⟨[0, 0, 0], [0, 0, 0], [], [0, 0, 0], [], [], 1⟩,
         ⟨[0, 0, 0], [0, 0, 0], [], [0, 0, 0], [], [], 0⟩] =
      (some gs, Model.sortTriangles
        [⟨[0, 0, 0], [0, 0, 0], [], [0, 0, 0], [], [], 1⟩,
         ⟨[0, 0, 0], [0, 0, 0], [], [0, 0, 0], [], [], 0⟩]) ∧
      gs.length = 2 ∧
      Model.sumCounts gs = 3 * 2 ∧
      Model.chainEnd 0 gs = some (3 * 2) ∧
      Model.labelEnd 0 gs = some 2 :=
  initGroups_partitions_corners 2
    [⟨[0, 0, 0], [0, 0, 0], [], [0, 0, 0], [], [], 1⟩,
     ⟨[0, 0, 0], [0, 0, 0], [], [0, 0, 0], [], [], 0⟩]
    (by decide) (by decide)

/-- C4 counterexample: a material that resolves to an *empty* sub-material
list (no textures and no children) with one triangle: `initGroups` emits no
group at all, so the group counts sum to 0, not `3 × 1` — the claim fails as
stated for empty sub-material lists. -/
theorem initGroups_empty_sublist_counterexample :
    Model.initGroups (some 0)
        [⟨[0, 0, 0], [0, 0, 0], [], [0, 0, 0], [], [], 0⟩] =
      (some [], [⟨[0, 0, 0], [0, 0, 0], [], [0, 0, 0], [], [], 0⟩]) ∧
    Model.sumCounts [] = 0 ∧
    3 * ([⟨[0, 0, 0], [0, 0, 0], [], [0, 0, 0], [], [], 0⟩] :
      List Triangle).length = 3 ∧
    (0 : Nat) ≠ 3 :=
  ⟨by rfl, rfl, rfl, by decide⟩

/-- Reading an index other than the stored one. -/
theorem upd_ne {f : Nat → Nat} {i v j : Nat} (h : j ≠ i) :
    Qnt.upd f i v j = f j := by
  simp [Qnt.upd, h]

/-- Reading the stored index. -/
theorem upd_eq {f : Nat → Nat} {i v : Nat} : Qnt.upd f i v i = v := by
  simp [Qnt.upd]

/-- The first-row channel step leaves all other bytes unchanged. -/
theorem row0Chans_ne (f : Nat → Nat) (x : Nat) :
    ∀ (m j : Nat), (∀ c, c < m → j ≠ x * 4 + c) →
    Qnt.row0Chans f x m j = f j := by
  intro m
  induction m with
  | zero => intro j _; rfl
  | succ m ih =>
    intro j h
    simp only [Qnt.row0Chans]
    rw [upd_ne (h m (by omega))]
    exact ih j (fun c hc => h c (by omega))

/-- The first-row channel step stores `out[x-1] - in[x]` per channel. -/
theorem row0Chans_val (f : Nat → Nat) (x : Nat) :
    ∀ (m c : Nat), c < m → m ≤ 4 → 1 ≤ x →
    Qnt.row0Chans f x m (x * 4 + c) =
      Qnt.sub8 (f ((x - 1) * 4 + c)) (f (x * 4 + c)) := by
  intro m
  induction m with
  | zero => intro c hc _ _; omega
  | succ m ih =>
    intro c hc hm hx
    simp only [Qnt.row0Chans]
    rcases Nat.lt_or_ge c m with hlt | hge
    · rw [upd_ne (by omega)]
      exact ih c hlt (by omega) hx
    · have hcm : c = m := by omega
      subst hcm
      rw [upd_eq]
      have hprev : (x - 1) * 4 + c < x * 4 := by omega
      rw [row0Chans_ne f x c ((x - 1) * 4 + c) (fun c' hc' => by omega)]
      rw [row0Chans_ne f x c (x * 4 + c) (fun c' hc' => by omega)]

/-- The first-row loop never touches bytes 0–3. -/
theorem row0Loop_lo (f : Nat → Nat) : ∀ (n j : Nat), j < 4 →
    Qnt.row0Loop f n j = f j := by
  intro n
  induction n with
  | zero => intro j _; rfl
  | succ n ih =>
    intro j hj
    simp only [Qnt.row0Loop]
    rw [row0Chans_ne _ (n + 1) 4 j (fun c hc => by omega)]
    exact ih j hj

/-- The first-row loop never touches bytes at or past `4n + 4`. -/
theorem row0Loop_hi (f : Nat → Nat) : ∀ (n j : Nat), 4 * n + 4 ≤ j →
    Qnt.row0Loop f n j = f j := by
  intro n
  induction n with
  | zero => intro j _; rfl
  | succ n ih =>
    intro j hj
    simp only [Qnt.row0Loop]
    rw [row0Chans_ne _ (n + 1) 4 j (fun c hc => by omega)]
    exact ih j (by omega)

/-- Final first-row values: `out[x] = out[x-1] - in[x]` for `1 ≤ x ≤ n`. -/
theorem row0Loop_val (f : Nat → Nat) : ∀ (n x c : Nat),
    1 ≤ x → x ≤ n → c < 4 →
    Qnt.row0Loop f n (x * 4 + c) =
      Qnt.sub8 (Qnt.row0Loop f n ((x - 1) * 4 + c)) (f (x * 4 + c)) := by
  intro n
  induction n with
  | zero => intro x c hx hxn _; omega
  | succ n ih =>
    intro x c hx hxn hc
    simp only [Qnt.row0Loop]
    rcases Nat.lt_or_ge x (n + 1) with hxl | hxg
    · rw [row0Chans_ne _ (n + 1) 4 (x * 4 + c) (fun c' hc' => by omega)]
      rw [row0Chans_ne _ (n + 1) 4 ((x - 1) * 4 + c) (fun c' hc' => by omega)]
      exact ih x c hx (by omega) hc
    · have hx1 : x = n + 1 := by omega
      subst hx1
      rw [row0Chans_val _ (n + 1) 4 c hc (by omega) (by omega)]
      rw [row0Chans_ne _ (n + 1) 4 ((n + 1 - 1) * 4 + c) (fun c' hc' => by omega)]
      rw [row0Loop_hi f n ((n + 1) * 4 + c) (by omega)]

/-- Row base offsets of consecutive rows differ by the row stride. -/
theorem prevRow_base (y w : Nat) (hy : 1 ≤ y) :
    (y - 1) * w * 4 + w * 4 = y * w * 4 := by
  cases y with
  | zero => omega
  | succ n => simp only [Nat.add_sub_cancel]; ring

/-- Row bases are monotone in the row index. -/
theorem rowBase_mono (y n w : Nat) (h : y ≤ n) : y * w * 4 ≤ n * w * 4 := by
  have := Nat.mul_le_mul_right w h
  omega

/-- The channel step at `(x, y)` leaves all other bytes unchanged. -/
theorem rowChans_ne (f : Nat → Nat) (w y x : Nat) :
    ∀ (m j : Nat), (∀ c, c < m → j ≠ y * w * 4 + x * 4 + c) →
    Qnt.rowChans f w y x m j = f j := by
  intro m
  induction m with
  | zero => intro j _; rfl
  | succ m ih =>
    intro j h
    simp only [Qnt.rowChans]
    rw [upd_ne (h m (by omega))]
    exact ih j (fun c hc => h c (by omega))

/-- The channel step at `(x, y)` stores `((up + left) >> 1) - in` per
channel. -/
theorem rowChans_val (f : Nat → Nat) (w y x : Nat) :
    ∀ (m c : Nat), c < m → m ≤ 4 → 1 ≤ x → 1 ≤ y → 1 ≤ w →
    Qnt.rowChans f w y x m (y * w * 4 + x * 4 + c) =
      Qnt.sub8 ((f ((y - 1) * w * 4 + x * 4 + c) +
                 f (y * w * 4 + (x - 1) * 4 + c)) / 2)
        (f (y * w * 4 + x * 4 + c)) := by
  intro m
  induction m with
  | zero => intro c hc _ _ _ _; omega
  | succ m ih =>
    intro c hc hm hx hy hw
    have hpb := prevRow_base y w hy
    simp only [Qnt.rowChans]
    rcases Nat.lt_or_ge c m with hlt | hge
    · rw [upd_ne (by omega)]
      exact ih c hlt (by omega) hx hy hw
    · have hcm : c = m := by omega
      subst hcm
      rw [upd_eq]
      rw [rowChans_ne f w y x c ((y - 1) * w * 4 + x * 4 + c)
        (fun c' hc' => by omega)]
      rw [rowChans_ne f w y x c (y * w * 4 + (x - 1) * 4 + c)
        (fun c' hc' => by omega)]
      rw [rowChans_ne f w y x c (y * w * 4 + x * 4 + c)
        (fun c' hc' => by omega)]

/-- The x loop of a row leaves bytes outside its pixels unchanged. -/
theorem rowXLoop_ne (f : Nat → Nat) (w y : Nat) :
    ∀ (n j : Nat), (∀ x c, 1 ≤ x → x ≤ n → c < 4 →
      j ≠ y * w * 4 + x * 4 + c) →
    Qnt.rowXLoop f w y n j = f j := by
  intro n
  induction n with
  | zero => intro j _; rfl
  | succ n ih =>
    intro j h
    simp only [Qnt.rowXLoop]
    rw [rowChans_ne _ w y (n + 1) 4 j
      (fun c hc => h (n + 1) c (by omega) (by omega) hc)]
    exact ih j (fun x c hx hxn hc => h x c hx (by omega) hc)

/-- Final x-loop values of a row: the average predictor per pixel. -/
theorem rowXLoop_val (f : Nat → Nat) (w y : Nat) :
    ∀ (n x c : Nat), 1 ≤ x → x ≤ n → c < 4 → 1 ≤ y → 1 ≤ w →
    (n + 1) * 4 ≤ w * 4 →
    Qnt.rowXLoop f w y n (y * w * 4 + x * 4 + c) =
      Qnt.sub8 ((f ((y - 1) * w * 4 + x * 4 + c) +
                 Qnt.rowXLoop f w y n (y * w * 4 + (x - 1) * 4 + c)) / 2)
        (f (y * w * 4 + x * 4 + c)) := by
  intro n
  induction n with
  | zero => intro x c hx hxn _ _ _ _; omega
  | succ n ih =>
    intro x c hx hxn hc hy hw hnw
    have hpb := prevRow_base y w hy
    simp only [Qnt.rowXLoop]
    rcases Nat.lt_or_ge x (n + 1) with hxl | hxg
    · rw [rowChans_ne _ w y (n + 1) 4 (y * w * 4 + x * 4 + c)
        (fun c' hc' => by omega)]
      rw [rowChans_ne _ w y (n + 1) 4 (y * w * 4 + (x - 1) * 4 + c)
        (fun c' hc' => by omega)]
      exact ih x c hx (by omega) hc hy hw (by omega)
    · have hx1 : x = n + 1 := by omega
      subst hx1
      rw [rowChans_val _ w y (n + 1) 4 c hc (by omega) (by omega) hy hw]
      rw [rowXLoop_ne f w y n ((y - 1) * w * 4 + (n + 1) * 4 + c)
        (fun x' c' hx' hxn' hc' => by omega)]
      rw [rowXLoop_ne f w y n (y * w * 4 + (n + 1) * 4 + c)
        (fun x' c' hx' hxn' hc' => by omega)]
      rw [rowChans_ne _ w y (n + 1) 4 (y * w * 4 + (n + 1 - 1) * 4 + c)
        (fun c' hc' => by omega)]

/-- The column-0 channel step leaves all other bytes unchanged. -/
theorem colChans_ne (f : Nat → Nat) (w y : Nat) :
    ∀ (m j : Nat), (∀ c, c < m → j ≠ y * w * 4 + c) →
    Qnt.colChans f w y m j = f j := by
  intro m
  induction m with
  | zero => intro j _; rfl
  | succ m ih =>
    intro j h
    simp only [Qnt.colChans]
    rw [upd_ne (h m (by omega))]
    exact ih j (fun c hc => h c (by omega))

/-- Column-0 values: `row[c] = prevrow[c] - row[c]`. -/
theorem colChans_val (f : Nat → Nat) (w y : Nat) :
    ∀ (m c : Nat), c < m → m ≤ 4 → 1 ≤ y → 1 ≤ w →
    Qnt.colChans f w y m (y * w * 4 + c) =
      Qnt.sub8 (f ((y - 1) * w * 4 + c)) (f (y * w * 4 + c)) := by
  intro m
  induction m with
  | zero => intro c hc _ _ _; omega
  | succ m ih =>
    intro c hc hm hy hw
    have hpb := prevRow_base y w hy
    simp only [Qnt.colChans]
    rcases Nat.lt_or_ge c m with hlt | hge
    · rw [upd_ne (by omega)]
      exact ih c hlt (by omega) hy hw
    · have hcm : c = m := by omega
      subst hcm
      rw [upd_eq]
      rw [colChans_ne f w y c ((y - 1) * w * 4 + c) (fun c' hc' => by omega)]
      rw [colChans_ne f w y c (y * w * 4 + c) (fun c' hc' => by omega)]

/-- A row pass only writes inside its own row. -/
theorem rowPass_ne (f : Nat → Nat) (w y j : Nat) (hw : 1 ≤ w)
    (h : j < y * w * 4 ∨ y * w * 4 + w * 4 ≤ j) :
    Qnt.rowPass f w y j = f j := by
  rw [Qnt.rowPass]
  rw [rowXLoop_ne _ w y (w - 1) j (fun x c hx hxn hc => by omega)]
  exact colChans_ne f w y 4 j (fun c hc => by omega)

/-- Row-pass value at column 0. -/
theorem rowPass_col0 (f : Nat → Nat) (w y c : Nat) (hc : c < 4)
    (hy : 1 ≤ y) (hw : 1 ≤ w) :
    Qnt.rowPass f w y (y * w * 4 + c) =
      Qnt.sub8 (f ((y - 1) * w * 4 + c)) (f (y * w * 4 + c)) := by
  rw [Qnt.rowPass]
  rw [rowXLoop_ne _ w y (w - 1) (y * w * 4 + c)
    (fun x c' hx hxn hc' => by omega)]
  exact colChans_val f w y 4 c hc (by omega) hy hw

/-- Row-pass value at `x ≥ 1`. -/
theorem rowPass_mid (f : Nat → Nat) (w y x c : Nat) (hx : 1 ≤ x)
    (hxw : x ≤ w - 1) (hc : c < 4) (hy : 1 ≤ y) (hw : 1 ≤ w) :
    Qnt.rowPass f w y (y * w * 4 + x * 4 + c) =
      Qnt.sub8 ((f ((y - 1) * w * 4 + x * 4 + c) +
                 Qnt.rowPass f w y (y * w * 4 + (x - 1) * 4 + c)) / 2)
        (f (y * w * 4 + x * 4 + c)) := by
  have hpb := prevRow_base y w hy
  rw [Qnt.rowPass]
  rw [rowXLoop_val _ w y (w - 1) x c hx hxw hc hy hw (by omega)]
  rw [colChans_ne f w y 4 ((y - 1) * w * 4 + x * 4 + c)
    (fun c' hc' => by omega)]
  rw [colChans_ne f w y 4 (y * w * 4 + x * 4 + c) (fun c' hc' => by omega)]

/-- The row loop leaves row 0 and all rows past `n` unchanged. -/
theorem rowsLoop_ne (f : Nat → Nat) (w : Nat) :
    ∀ (n j : Nat), 1 ≤ w → (j < w * 4 ∨ (n + 1) * w * 4 ≤ j) →
    Qnt.rowsLoop f w n j = f j := by
  intro n
  induction n with
  | zero => intro j _ _; rfl
  | succ n ih =>
    intro j hw h
    have h1 : (n + 1) * w * 4 = n * w * 4 + w * 4 := by ring
    have h2 : (n + 1 + 1) * w * 4 = (n + 1) * w * 4 + w * 4 := by ring
    have h3 : 1 * w * 4 ≤ (n + 1) * w * 4 := rowBase_mono 1 (n + 1) w (by omega)
    simp only [Qnt.rowsLoop]
    rw [rowPass_ne _ w (n + 1) j hw (by omega)]
    exact ih j hw (by omega)

/-- Final row-loop values at column 0 of rows `1..n`. -/
theorem rowsLoop_col0 (f : Nat → Nat) (w : Nat) :
    ∀ (n y c : Nat), 1 ≤ y → y ≤ n → c < 4 → 1 ≤ w →
    Qnt.rowsLoop f w n (y * w * 4 + c) =
      Qnt.sub8 (Qnt.rowsLoop f w n ((y - 1) * w * 4 + c))
        (f (y * w * 4 + c)) := by
  intro n
  induction n with
  | zero => intro y c hy hyn _ _; omega
  | succ n ih =>
    intro y c hy hyn hc hw
    have hpb := prevRow_base y w hy
    have hsucc : (n + 1) * w * 4 = n * w * 4 + w * 4 := by ring
    simp only [Qnt.rowsLoop]
    rcases Nat.lt_or_ge y (n + 1) with hyl | hyg
    · have hylt : y ≤ n := by omega
      have hmono : y * w * 4 ≤ n * w * 4 := rowBase_mono y n w hylt
      have hmono' : (y - 1) * w * 4 ≤ n * w * 4 := rowBase_mono (y - 1) n w (by omega)
      rw [rowPass_ne _ w (n + 1) (y * w * 4 + c) hw (by omega)]
      rw [rowPass_ne _ w (n + 1) ((y - 1) * w * 4 + c) hw (by omega)]
      exact ih y c hy hylt hc hw
    · have hy1 : y = n + 1 := by omega
      subst hy1
      rw [rowPass_col0 _ w (n + 1) c hc (by omega) hw]
      rw [rowsLoop_ne f w n ((n + 1) * w * 4 + c) hw (by omega)]
      rw [rowPass_ne _ w (n + 1) ((n + 1 - 1) * w * 4 + c) hw
        (by simp only [Nat.add_sub_cancel]; omega)]

/-- Final row-loop values at `x ≥ 1` of rows `1..n`. -/
theorem rowsLoop_mid (f : Nat → Nat) (w : Nat) :
    ∀ (n y x c : Nat), 1 ≤ y → y ≤ n → 1 ≤ x → x ≤ w - 1 → c < 4 → 1 ≤ w →
    Qnt.rowsLoop f w n (y * w * 4 + x * 4 + c) =
      Qnt.sub8 ((Qnt.rowsLoop f w n ((y - 1) * w * 4 + x * 4 + c) +
                 Qnt.rowsLoop f w n (y * w * 4 + (x - 1) * 4 + c)) / 2)
        (f (y * w * 4 + x * 4 + c)) := by
  intro n
  induction n with
  | zero => intro y x c hy hyn _ _ _ _; omega
  | succ n ih =>
    intro y x c hy hyn hx hxw hc hw
    have hpb := prevRow_base y w hy
    have hsucc : (n + 1) * w * 4 = n * w * 4 + w * 4 := by ring
    simp only [Qnt.rowsLoop]
    rcases Nat.lt_or_ge y (n + 1) with hyl | hyg
    · have hylt : y ≤ n := by omega
      have hmono : y * w * 4 ≤ n * w * 4 := rowBase_mono y n w hylt
      have hmono' : (y - 1) * w * 4 ≤ n * w * 4 := rowBase_mono (y - 1) n w (by omega)
      rw [rowPass_ne _ w (n + 1) (y * w * 4 + x * 4 + c) hw (by omega)]
      rw [rowPass_ne _ w (n + 1) ((y - 1) * w * 4 + x * 4 + c) hw (by omega)]
      rw [rowPass_ne _ w (n + 1) (y * w * 4 + (x - 1) * 4 + c) hw (by omega)]
      exact ih y x c hy hylt hx hxw hc hw
    · have hy1 : y = n + 1 := by omega
      subst hy1
      rw [rowPass_mid _ w (n + 1) x c hx hxw hc (by omega) hw]
      rw [rowsLoop_ne f w n ((n + 1) * w * 4 + x * 4 + c) hw (by omega)]
      rw [rowPass_ne _ w (n + 1) ((n + 1 - 1) * w * 4 + x * 4 + c) hw
        (by simp only [Nat.add_sub_cancel]; omega)]

/-- C2.  The QNT unfilter transforms the RGBA buffer in place, in scan
order, uniformly per channel `c < 4`, with "above" and "left" denoting
already-unfiltered neighbours: pixel (0,0) is untouched; on row 0,
`out[x] = out[x−1] − in[x] (mod 256)`; at column 0 of later rows,
`out[0] = above[0] − in[0]`; elsewhere
`out = ((above + left) >> 1) − in`, the sum being exact (taken in `int`,
i.e. at least 9 bits) before the shift. -/
theorem unfilter_recurrence (f : Nat → Nat) (w h x y c : Nat)
    (hc : c < 4) (hx : x < w) (hy : y < h) :
    (x = 0 → y = 0 → Qnt.unfilter f w h c = f c) ∧
    (1 ≤ x → y = 0 → Qnt.unfilter f w h (x * 4 + c) =
      Qnt.sub8 (Qnt.unfilter f w h ((x - 1) * 4 + c)) (f (x * 4 + c))) ∧
    (1 ≤ y → Qnt.unfilter f w h (y * w * 4 + c) =
      Qnt.sub8 (Qnt.unfilter f w h ((y - 1) * w * 4 + c))
        (f (y * w * 4 + c))) ∧
    (1 ≤ x → 1 ≤ y → Qnt.unfilter f w h (y * w * 4 + x * 4 + c) =
      Qnt.sub8 ((Qnt.unfilter f w h ((y - 1) * w * 4 + x * 4 + c) +
                 Qnt.unfilter f w h (y * w * 4 + (x - 1) * 4 + c)) / 2)
        (f (y * w * 4 + x * 4 + c))) := by
  have hw : 1 ≤ w := by omega
  have hh : 1 ≤ h := by omega
  have hrow : w * 4 ≤ 1 * w * 4 := by omega
  refine ⟨?_, ?_, ?_, ?_⟩
  · intro _ _
    rw [Qnt.unfilter]
    rw [rowsLoop_ne _ w (h - 1) c hw (Or.inl (by omega))]
    exact row0Loop_lo f (w - 1) c hc
  · intro hx1 _
    rw [Qnt.unfilter]
    rw [rowsLoop_ne _ w (h - 1) (x * 4 + c) hw (Or.inl (by omega))]
    rw [rowsLoop_ne _ w (h - 1) ((x - 1) * 4 + c) hw (Or.inl (by omega))]
    exact row0Loop_val f (w - 1) x c hx1 (by omega) hc
  · intro hy1
    have hbase : 1 * w * 4 ≤ y * w * 4 := rowBase_mono 1 y w hy1
    rw [Qnt.unfilter]
    rw [rowsLoop_col0 _ w (h - 1) y c hy1 (by omega) hc hw]
    rw [row0Loop_hi f (w - 1) (y * w * 4 + c) (by omega)]
  · intro hx1 hy1
    have hbase : 1 * w * 4 ≤ y * w * 4 := rowBase_mono 1 y w hy1
    rw [Qnt.unfilter]
    rw [rowsLoop_mid _ w (h - 1) y x c hy1 (by omega) hx1 (by omega) hc hw]
    rw [row0Loop_hi f (w - 1) (y * w * 4 + x * 4 + c) (by omega)]

/-- C2 witness: the average-predictor recurrence at pixel (1,1), channel 0
of a concrete 2×2 buffer. -/
theorem unfilter_recurrence_witness :
    Qnt.unfilter demoPix 2 2 (1 * 2 * 4 + 1 * 4 + 0) =
      Qnt.sub8 ((Qnt.unfilter demoPix 2 2 ((1 - 1) * 2 * 4 + 1 * 4 + 0) +
                 Qnt.unfilter demoPix 2 2 (1 * 2 * 4 + (1 - 1) * 4 + 0)) / 2)
        (demoPix (1 * 2 * 4 + 1 * 4 + 0)) :=
  (unfilter_recurrence demoPix 2 2 1 1 0 (by decide) (by decide)
    (by decide)).2.2.2 (by decide) (by decide)

/-- C8 (amended).  `qnt_extract` runs `unfilter` with the *declared* width
and height: the pass touches only the first `width*height*4` bytes of the
padded buffer, and only when both declared dimensions are even does it
coincide with unfiltering the full padded `W×H` buffer (then `W = width`,
`H = height`); the downstream consumer reads the declared dimensions. -/
theorem qnt_unfilter_declared_dims (f : Nat → Nat) (w h j : Nat)
    (hw : 1 ≤ w) (hh : 1 ≤ h) (hj : w * h * 4 ≤ j) :
    Qnt.unfilter f w h j = f j ∧
    ∀ (raw : Nat → Nat) (alpha : Option (Nat → Nat)),
      w % 2 = 0 → h % 2 = 0 →
      Qnt.qnt_extract_stage w h raw alpha =
        Qnt.unfilter (Qnt.alphaStage (Qnt.extract_pixels w h raw) alpha w h)
          (Qnt.evenUp w) (Qnt.evenUp h) := by
  constructor
  · have e1 : (h - 1 + 1) * w * 4 = w * h * 4 := by
      have eh : h - 1 + 1 = h := by omega
      rw [eh]; ring
    have e2 : w * 4 ≤ w * h * 4 := by
      have := Nat.mul_le_mul_left w hh
      omega
    rw [Qnt.unfilter]
    rw [rowsLoop_ne _ w (h - 1) j hw (Or.inr (by omega))]
    exact row0Loop_hi f (w - 1) j (by omega)
  · intro raw alpha hwe hhe
    have ew : Qnt.evenUp w = w := by
      simp only [Qnt.evenUp]
      omega
    have eh : Qnt.evenUp h = h := by
      simp only [Qnt.evenUp]
      omega
    rw [ew, eh]
    rfl

/-- C8 witness: prefix preservation at the first out-of-range byte of a
2×2 buffer, and the even-dimension agreement instance. -/
theorem qnt_unfilter_declared_dims_witness :
    Qnt.unfilter demoPix 2 2 16 = demoPix 16 ∧
    ∀ (raw : Nat → Nat) (alpha : Option (Nat → Nat)),
      2 % 2 = 0 → 2 % 2 = 0 →
      Qnt.qnt_extract_stage 2 2 raw alpha =
        Qnt.unfilter (Qnt.alphaStage (Qnt.extract_pixels 2 2 raw) alpha 2 2)
          (Qnt.evenUp 2) (Qnt.evenUp 2) :=
  qnt_unfilter_declared_dims demoPix 2 2 16 (by decide) (by decide)
    (by decide)

/-- C8 counterexample: for declared dimensions 1×1 (padded 2×2),
`qnt_extract` leaves the padded pixel at byte 4 unchanged (its `unfilter`
runs with width = height = 1), while unfiltering the full padded 2×2 buffer
— what the claim asserts — would rewrite it: the two disagree. -/
theorem qnt_unfilter_padded_counterexample :
    Qnt.qnt_extract_stage 1 1 demoQntRaw none 4 = 1 ∧
    Qnt.unfilter (Qnt.alphaStage (Qnt.extract_pixels 1 1 demoQntRaw) none 1 1)
        (Qnt.evenUp 1) (Qnt.evenUp 1) 4 = 255 ∧
    (1 : Nat) ≠ 255 :=
  ⟨by rfl, by rfl, by decide⟩

/-- A successful `parseCount` yields exactly `n` items. -/
theorem parseCount_length {α : Type}
    (f : BufferReader → Except Err (α × BufferReader)) :
    ∀ (n : Nat) (r : BufferReader) (xs : List α) (r' : BufferReader),
    parseCount f n r = .ok (xs, r') → xs.length = n := by
  intro n
  induction n with
  | zero =>
    intro r xs r' h
    simp only [parseCount, Except.ok.injEq, Prod.mk.injEq] at h
    obtain ⟨h1, _⟩ := h
    simp [← h1]
  | succ n ih =>
    intro r xs r' h
    simp only [parseCount] at h
    rw [exceptBind_ok] at h
    obtain ⟨⟨x, r₁⟩, hx, h⟩ := h
    simp only at h
    rw [exceptBind_ok] at h
    obtain ⟨⟨xs', r₂⟩, hxs, h⟩ := h
    simp only [Except.ok.injEq, Prod.mk.injEq] at h
    obtain ⟨h1, _⟩ := h
    subst h1
    simp [ih r₁ xs' r₂ hxs]

/-- Every item of a successful `parseCount` satisfies any per-item
postcondition of `f`. -/
theorem parseCount_mem {α : Type}
    (f : BufferReader → Except Err (α × BufferReader)) (P : α → Prop)
    (hf : ∀ r x r', f r = .ok (x, r') → P x) :
    ∀ (n : Nat) (r : BufferReader) (xs : List α) (r' : BufferReader),
    parseCount f n r = .ok (xs, r') → ∀ x ∈ xs, P x := by
  intro n
  induction n with
  | zero =>
    intro r xs r' h
    simp only [parseCount, Except.ok.injEq, Prod.mk.injEq] at h
    obtain ⟨h1, _⟩ := h
    subst h1
    intro x hx
    exact absurd hx (by simp)
  | succ n ih =>
    intro r xs r' h
    simp only [parseCount] at h
    rw [exceptBind_ok] at h
    obtain ⟨⟨x, r₁⟩, hx, h⟩ := h
    simp only at h
    rw [exceptBind_ok] at h
    obtain ⟨⟨xs', r₂⟩, hxs, h⟩ := h
    simp only [Except.ok.injEq, Prod.mk.injEq] at h
    obtain ⟨h1, _⟩ := h
    subst h1
    intro u hu
    rcases List.mem_cons.mp hu with rfl | hmem
    · exact hf r u r₁ hx
    · exact ih r₁ xs' r₂ hxs u hmem

/-- Parsed light-uv indices are in `[0, nr_light_uvs)` (vacuously when the
table is absent and the list is empty). -/
theorem parse_light_uv_index_ok {nr_uvs nr_light_uvs : Nat}
    {r : BufferReader} {out : List Int} {r' : BufferReader}
    (h : Pol.parse_light_uv_index nr_uvs nr_light_uvs r = .ok (out, r')) :
    ∀ i ∈ out, 0 ≤ i ∧ i < (nr_light_uvs : Int) := by
  unfold Pol.parse_light_uv_index at h
  split at h
  · rw [exceptBind_ok] at h
    obtain ⟨⟨l0, r1⟩, _, h⟩ := h
    simp only at h
    rw [exceptBind_ok] at h
    obtain ⟨⟨l1, r2⟩, _, h⟩ := h
    simp only at h
    rw [exceptBind_ok] at h
    obtain ⟨⟨l2, r3⟩, _, h⟩ := h
    simp only at h
    split at h
    · simp at h
    · split at h
      · simp at h
      · split at h
        · simp at h
        · rename_i h0 h1 h2
          simp only [pure, Except.pure, Except.ok.injEq, Prod.mk.injEq] at h
          obtain ⟨hout, _⟩ := h
          subst hout
          intro i hi
          push_neg at h0 h1 h2
          simp only [List.mem_cons, List.not_mem_nil, or_false] at hi
          rcases hi with rfl | rfl | rfl <;> omega
  · simp only [pure, Except.pure, Except.ok.injEq, Prod.mk.injEq] at h
    obtain ⟨hout, _⟩ := h
    subst hout
    intro i hi
    exact absurd hi (by simp)

/-- Parsed color indices are below `nr_colors` whenever that table is
nonempty. -/
theorem parse_color_index_ok {nr_colors : Nat} {r : BufferReader}
    {out : List Nat} {r' : BufferReader}
    (h : Pol.parse_color_index nr_colors r = .ok (out, r')) :
    0 < nr_colors → ∀ i ∈ out, i < nr_colors := by
  unfold Pol.parse_color_index at h
  rw [exceptBind_ok] at h
  obtain ⟨⟨c0, r1⟩, _, h⟩ := h
  simp only at h
  split at h
  · simp at h
  · rename_i h0
    rw [exceptBind_ok] at h
    obtain ⟨⟨c1, r2⟩, _, h⟩ := h
    simp only at h
    split at h
    · simp at h
    · rename_i h1
      rw [exceptBind_ok] at h
      obtain ⟨⟨c2, r3⟩, _, h⟩ := h
      simp only at h
      split at h
      · simp at h
      · rename_i h2
        simp only [pure, Except.pure, Except.ok.injEq, Prod.mk.injEq] at h
        obtain ⟨hout, _⟩ := h
        subst hout
        intro hpos i hi
        push_neg at h0 h1 h2
        simp only [List.mem_cons, List.not_mem_nil, or_false] at hi
        rcases hi with rfl | rfl | rfl <;> omega

/-- Parsed alpha indices are below `nr_alphas` (vacuously when the table is
absent). -/
theorem parse_alpha_index_ok {nr_alphas : Nat} {r : BufferReader}
    {out : List Nat} {r' : BufferReader}
    (h : Pol.parse_alpha_index nr_alphas r = .ok (out, r')) :
    ∀ i ∈ out, i < nr_alphas := by
  unfold Pol.parse_alpha_index at h
  split at h
  · rw [exceptBind_ok] at h
    obtain ⟨⟨a0, r1⟩, _, h⟩ := h
    simp only at h
    split at h
    · simp at h
    · rename_i h0
      rw [exceptBind_ok] at h
      obtain ⟨⟨a1, r2⟩, _, h⟩ := h
      simp only at h
      split at h
      · simp at h
      · rename_i h1
        rw [exceptBind_ok] at h
        obtain ⟨⟨a2, r3⟩, _, h⟩ := h
        simp only at h
        split at h
        · simp at h
        · rename_i h2
          simp only [pure, Except.pure, Except.ok.injEq, Prod.mk.injEq] at h
          obtain ⟨hout, _⟩ := h
          subst hout
          intro i hi
          simp only [List.mem_cons, List.not_mem_nil, or_false] at hi
          rcases hi with rfl | rfl | rfl <;> omega
  · simp only [pure, Except.pure, Except.ok.injEq, Prod.mk.injEq] at h
    obtain ⟨hout, _⟩ := h
    subst hout
    intro i hi
    exact absurd hi (by simp)

/-- Every triangle produced by `parse_triangle` satisfies the range checks
it performs: vertex and uv indices below their counts, light-uv indices in
`[0, nr_light_uvs)`, color indices below `nr_colors` when that table is
nonempty, alpha indices below `nr_alphas`. -/
theorem parse_triangle_valid {nv nuv nluv nc na : Nat}
    {mo : Option MaterialInfo} {r : BufferReader} {t : Triangle}
    {r' : BufferReader}
    (h : Pol.parse_triangle nv nuv nluv nc na mo r = .ok (t, r')) :
    triRawValid nv nuv nluv nc na t := by
  unfold Pol.parse_triangle at h
  rw [exceptBind_ok] at h
  obtain ⟨⟨v0, r1⟩, _, h⟩ := h
  simp only at h
  rw [exceptBind_ok] at h
  obtain ⟨⟨v1, r2⟩, _, h⟩ := h
  simp only at h
  rw [exceptBind_ok] at h
  obtain ⟨⟨v2, r3⟩, _, h⟩ := h
  simp only at h
  rw [exceptBind_ok] at h
  obtain ⟨⟨u0, r4⟩, _, h⟩ := h
  simp only at h
  rw [exceptBind_ok] at h
  obtain ⟨⟨u1, r5⟩, _, h⟩ := h
  simp only at h
  rw [exceptBind_ok] at h
  obtain ⟨⟨u2, r6⟩, _, h⟩ := h
  simp only at h
  split at h
  · simp at h
  split at h
  · simp at h
  split at h
  · simp at h
  split at h
  · simp at h
  split at h
  · simp at h
  split at h
  · simp at h
  rename_i hv0 hu0 hv1 hu1 hv2 hu2
  rw [exceptBind_ok] at h
  obtain ⟨⟨lix, r7⟩, hlight, h⟩ := h
  simp only at h
  rw [exceptBind_ok] at h
  obtain ⟨⟨cix, r8⟩, hcolor, h⟩ := h
  simp only at h
  rw [exceptBind_ok] at h
  obtain ⟨⟨aix, r9⟩, halpha, h⟩ := h
  simp only at h
  rw [exceptBind_ok] at h
  obtain ⟨⟨n0, r10⟩, _, h⟩ := h
  simp only at h
  rw [exceptBind_ok] at h
  obtain ⟨⟨n1, r11⟩, _, h⟩ := h
  simp only at h
  rw [exceptBind_ok] at h
  obtain ⟨⟨n2, r12⟩, _, h⟩ := h
  simp only at h
  rw [exceptBind_ok] at h
  obtain ⟨⟨mi, r13⟩, _, h⟩ := h
  simp only [Except.ok.injEq, Prod.mk.injEq] at h
  obtain ⟨ht, _⟩ := h
  subst ht
  refine ⟨?_, ?_, parse_light_uv_index_ok hlight, parse_color_index_ok hcolor,
    parse_alpha_index_ok halpha⟩
  · intro i hi
    simp only [List.mem_cons, List.not_mem_nil, or_false] at hi
    rcases hi with rfl | rfl | rfl <;> omega
  · intro i hi
    simp only [List.mem_cons, List.not_mem_nil, or_false] at hi
    rcases hi with rfl | rfl | rfl <;> omega

/-- The light-uv table has exactly `nr_light_uvs` entries when present. -/
theorem parse_light_uvs_table_ok {nr_light_uvs : Nat} {r : BufferReader}
    {o : Option (List PVec2)} {r' : BufferReader}
    (h : Pol.parse_light_uvs_table nr_light_uvs r = .ok (o, r')) :
    ∀ l, o = some l → l.length = nr_light_uvs := by
  unfold Pol.parse_light_uvs_table at h
  split at h
  · rw [exceptBind_ok] at h
    obtain ⟨⟨ll, rr⟩, hll, h⟩ := h
    simp only [pure, Except.pure, Except.ok.injEq, Prod.mk.injEq] at h
    intro l hleq
    rw [← h.1] at hleq
    simp only [Option.some.injEq] at hleq
    subst hleq
    exact parseCount_length _ _ _ _ _ hll
  · simp only [pure, Except.pure, Except.ok.injEq, Prod.mk.injEq] at h
    intro l hleq
    rw [← h.1] at hleq
    exact absurd hleq (by simp)

/-- The color table is nonempty-sized exactly when present. -/
theorem parse_colors_table_ok {version nr_colors : Nat} {r : BufferReader}
    {o : Option (List PVec3)} {r' : BufferReader}
    (h : Pol.parse_colors_table version nr_colors r = .ok (o, r')) :
    ∀ l, o = some l → l.length = nr_colors ∧ 0 < nr_colors := by
  unfold Pol.parse_colors_table at h
  split at h
  · rename_i hpos
    rw [exceptBind_ok] at h
    obtain ⟨⟨ll, rr⟩, hll, h⟩ := h
    simp only [pure, Except.pure, Except.ok.injEq, Prod.mk.injEq] at h
    intro l hleq
    rw [← h.1] at hleq
    simp only [Option.some.injEq] at hleq
    subst hleq
    exact ⟨parseCount_length _ _ _ _ _ hll, hpos⟩
  · simp only [pure, Except.pure, Except.ok.injEq, Prod.mk.injEq] at h
    intro l hleq
    rw [← h.1] at hleq
    exact absurd hleq (by simp)

/-- The alpha table has exactly `nr_alphas` entries when present. -/
theorem parse_alphas_table_ok {nr_alphas : Nat} {r : BufferReader}
    {o : Option (List RVal)} {r' : BufferReader}
    (h : Pol.parse_alphas_table nr_alphas r = .ok (o, r')) :
    ∀ l, o = some l → l.length = nr_alphas := by
  unfold Pol.parse_alphas_table at h
  split at h
  · rw [exceptBind_ok] at h
    obtain ⟨⟨ll, rr⟩, hll, h⟩ := h
    simp only [pure, Except.pure, Except.ok.injEq, Prod.mk.injEq] at h
    intro l hleq
    rw [← h.1] at hleq
    simp only [Option.some.injEq] at hleq
    subst hleq
    exact parseCount_length _ _ _ _ _ hll
  · simp only [pure, Except.pure, Except.ok.injEq, Prod.mk.injEq] at h
    intro l hleq
    rw [← h.1] at hleq
    exact absurd hleq (by simp)

/-- Every mesh produced by `parse_mesh` is index-valid against its own
attribute tables. -/
theorem parse_mesh_valid {version : Nat} {materials : List MaterialInfo}
    {r : BufferReader} {m : PolMesh} {r' : BufferReader}
    (h : Pol.parse_mesh version materials r = .ok (some m, r')) :
    meshValid m := by
  unfold Pol.parse_mesh at h
  rw [exceptBind_ok] at h
  obtain ⟨⟨ty, r1⟩, _, h⟩ := h
  simp only at h
  split at h
  · simp at h
  split at h
  · simp at h
  rw [exceptBind_ok] at h
  obtain ⟨⟨name, r2⟩, _, h⟩ := h
  simp only at h
  rw [exceptBind_ok] at h
  obtain ⟨⟨material, r3⟩, _, h⟩ := h
  simp only at h
  split at h
  · simp at h
  rw [exceptBind_ok] at h
  obtain ⟨⟨nv, r4⟩, _, h⟩ := h
  simp only at h
  rw [exceptBind_ok] at h
  obtain ⟨⟨vertices, r5⟩, hverts, h⟩ := h
  simp only at h
  rw [exceptBind_ok] at h
  obtain ⟨⟨nuv, r6⟩, _, h⟩ := h
  simp only at h
  rw [exceptBind_ok] at h
  obtain ⟨⟨uvs, r7⟩, huvs, h⟩ := h
  simp only at h
  rw [exceptBind_ok] at h
  obtain ⟨⟨nluv, r8⟩, _, h⟩ := h
  simp only at h
  rw [exceptBind_ok] at h
  obtain ⟨⟨light_uvs, r9⟩, hlights, h⟩ := h
  simp only at h
  rw [exceptBind_ok] at h
  obtain ⟨⟨ncol, r10⟩, _, h⟩ := h
  simp only at h
  rw [exceptBind_ok] at h
  obtain ⟨⟨colors, r11⟩, hcolors, h⟩ := h
  simp only at h
  rw [exceptBind_ok] at h
  obtain ⟨⟨nalpha, r12⟩, _, h⟩ := h
  simp only at h
  rw [exceptBind_ok] at h
  obtain ⟨⟨alphas, r13⟩, halphas, h⟩ := h
  simp only at h
  rw [exceptBind_ok] at h
  obtain ⟨⟨ntri, r14⟩, _, h⟩ := h
  simp only at h
  rw [exceptBind_ok] at h
  obtain ⟨⟨triangles, r15⟩, htris, h⟩ := h
  simp only at h
  rw [exceptBind_ok] at h
  obtain ⟨⟨fin, r16⟩, _, h⟩ := h
  simp only [Except.ok.injEq, Prod.mk.injEq, Option.some.injEq] at h
  obtain ⟨hm, _⟩ := h
  subst hm
  have hnv := parseCount_length _ _ _ _ _ hverts
  have hnuv := parseCount_length _ _ _ _ _ huvs
  have htval := parseCount_mem _ (triRawValid nv nuv nluv ncol nalpha)
    (fun r x r' hx => parse_triangle_valid hx) _ _ _ _ htris
  intro t ht
  simp only at ht
  obtain ⟨hv, hu, hl, hc, ha⟩ := htval t ht
  refine ⟨?_, ?_, ?_, ?_, ?_⟩
  · intro i hi
    simpa [hnv] using hv i hi
  · intro i hi
    simpa [hnuv] using hu i hi
  · intro l hleq i hi
    simp only at hleq
    have hlen := parse_light_uvs_table_ok hlights l hleq
    rw [hlen]
    exact hl i hi
  · intro l hleq i hi
    simp only at hleq
    obtain ⟨hlen, hpos⟩ := parse_colors_table_ok hcolors l hleq
    rw [hlen]
    exact hc hpos i hi
  · intro l hleq i hi
    simp only at hleq
    have hlen := parse_alphas_table_ok halphas l hleq
    rw [hlen]
    exact ha i hi

/-- C1.  On every byte buffer accepted by the `Pol` constructor, every
triangle of every parsed mesh is fully index-valid: its vertex and uv
indices are below the mesh's vertex and uv counts, its (offset-adjusted)
light-uv indices lie in `[0, nr_light_uvs)` whenever the light-uv table is
present, its color indices are below `nr_colors` whenever the color table is
present, and its alpha indices are below `nr_alphas` whenever the alpha
table is present.  (Contrapositively, any out-of-range value in the stream
makes the parse throw rather than produce a `Pol` value.) -/
theorem pol_parse_indices_valid (buf : List Nat) (pol : PolData)
    (h : Pol.parse buf = .ok pol) :
    ∀ om ∈ pol.meshes, ∀ m, om = some m → meshValid m := by
  unfold Pol.parse at h
  rw [exceptBind_ok] at h
  obtain ⟨⟨magic, r1⟩, _, h⟩ := h
  simp only at h
  split at h
  · simp at h
  rw [exceptBind_ok] at h
  obtain ⟨⟨version, r2⟩, _, h⟩ := h
  simp only at h
  split at h
  · simp at h
  rw [exceptBind_ok] at h
  obtain ⟨⟨nm, r3⟩, _, h⟩ := h
  simp only at h
  rw [exceptBind_ok] at h
  obtain ⟨⟨materials, r4⟩, _, h⟩ := h
  simp only at h
  rw [exceptBind_ok] at h
  obtain ⟨⟨nmesh, r5⟩, _, h⟩ := h
  simp only at h
  rw [exceptBind_ok] at h
  obtain ⟨⟨meshes, r6⟩, hmeshes, h⟩ := h
  simp only at h
  rw [exceptBind_ok] at h
  obtain ⟨⟨nb, r7⟩, _, h⟩ := h
  simp only at h
  rw [exceptBind_ok] at h
  obtain ⟨⟨bones, r8⟩, _, h⟩ := h
  simp only [Except.ok.injEq] at h
  subst h
  intro om hom m hm
  exact parseCount_mem _ (fun om => ∀ m, om = some m → meshValid m)
    (fun r x r' hx m' hm' => parse_mesh_valid (by rwa [hm'] at hx))
    _ _ _ _ hmeshes om hom m hm

set_option maxRecDepth 100000 in
/-- C1 witness: the demo POL v2 file parses and its single mesh's single
triangle is index-valid. -/
theorem pol_parse_indices_valid_witness :
    Pol.parse demoPolBuf = .ok demoPol ∧
    (∀ om ∈ demoPol.meshes, ∀ m, om = some m → meshValid m) :=
  ⟨by rfl, pol_parse_indices_valid demoPolBuf demoPol (by rfl)⟩
